import Mathlib

/-!
Verification of the jinja-universal language-registry scripts.

Shallow embedding of `scripts/common.py`, `scripts/generate.py` and
`scripts/sync_zed_languages.py`.  Python dictionaries are modelled as
insertion-ordered association lists, Python runtime values that can occur
in a parsed TOML config as the inductive `Value`, and Python strings as
Lean `String` (with character-list helpers mirroring `str` methods).
-/

namespace JinjaUniversal

/-- A Python runtime value as it can appear in a parsed config entry. -/
inductive Value where
  | str (s : String)
  | list (xs : List Value)
  | bool (b : Bool)
  | int (n : Int)

mutual

/-- Boolean equality on Python values. -/
def Value.beq : Value → Value → Bool
  | .str a, .str b => a == b
  | .list xs, .list ys => Value.beqList xs ys
  | .bool a, .bool b => a == b
  | .int a, .int b => a == b
  | _, _ => false

/-- Boolean equality on lists of Python values. -/
def Value.beqList : List Value → List Value → Bool
  | [], [] => true
  | x :: xs, y :: ys => Value.beq x y && Value.beqList xs ys
  | _, _ => false

end

mutual

theorem Value.beq_iff : ∀ a b : Value, Value.beq a b = true ↔ a = b
  | .str a, .str b => by simp [Value.beq]
  | .str _, .list _ | .str _, .bool _ | .str _, .int _ => by simp [Value.beq]
  | .list xs, .list ys => by
    simp only [Value.beq, Value.list.injEq]
    exact Value.beqList_iff xs ys
  | .list _, .str _ | .list _, .bool _ | .list _, .int _ => by simp [Value.beq]
  | .bool a, .bool b => by simp [Value.beq]
  | .bool _, .str _ | .bool _, .list _ | .bool _, .int _ => by simp [Value.beq]
  | .int a, .int b => by simp [Value.beq]
  | .int _, .str _ | .int _, .list _ | .int _, .bool _ => by simp [Value.beq]

theorem Value.beqList_iff : ∀ xs ys : List Value, Value.beqList xs ys = true ↔ xs = ys
  | [], [] => by simp [Value.beqList]
  | [], _ :: _ => by simp [Value.beqList]
  | _ :: _, [] => by simp [Value.beqList]
  | x :: xs, y :: ys => by
    simp only [Value.beqList, Bool.and_eq_true, List.cons.injEq]
    exact and_congr (Value.beq_iff x y) (Value.beqList_iff xs ys)

end

instance : DecidableEq Value := fun a b =>
  decidable_of_iff _ (Value.beq_iff a b)

/-- A config entry: a Python dict from field name to value
(insertion-ordered association list, keys unique). -/
abbrev Entry := List (String × Value)

/-- The whole config: a Python dict from `lang_id` to entry. -/
abbrev Config := List (String × Entry)

/-- `d.get(k)` on a Python dict. -/
def dictGet (e : Entry) (k : String) : Option Value :=
  (e.find? (fun p => p.1 = k)).map (·.2)

/-- `k in d` on a Python dict. -/
def dictHas (e : Entry) (k : String) : Bool :=
  (dictGet e k).isSome

/-- `d[k] = v` on a Python dict: overwrite in place, else append. -/
def dictSet : Entry → String → Value → Entry
  | [], k, v => [(k, v)]
  | (k', v') :: rest, k, v =>
    if k' = k then (k, v) :: rest else (k', v') :: dictSet rest k v

/-- `config.get(lang_id)`. -/
def cfgGet (config : Config) (langId : String) : Option Entry :=
  (config.find? (fun p => p.1 = langId)).map (·.2)

/-- Python `str(value)` (f-string interpolation) for the values we model. -/
def pyStr : Value → String
  | .str s => s
  | .bool b => if b then "True" else "False"
  | .int n => toString n
  | .list xs => "[" ++ String.intercalate ", " (xs.map fun v =>
      match v with
      | .str s => "'" ++ s ++ "'"
      | .bool b => if b then "True" else "False"
      | .int n => toString n
      | .list _ => "[...]") ++ "]"

/-- Python `s.startswith(pre)`. -/
def strStartsWith (s pre : String) : Bool :=
  pre.data.isPrefixOf s.data

/-- Python `s[1:]`. -/
def strDrop1 (s : String) : String :=
  String.mk (s.data.drop 1)

/-- Python `c in s` for a single character. -/
def strContains (s : String) (c : Char) : Bool :=
  s.data.contains c

/-- Python `s.count(c)` for a single character. -/
def countChar (s : String) (c : Char) : Nat :=
  s.data.count c

/-- Python whitespace recognised by `str.strip()` (ASCII subset). -/
def isPySpace (c : Char) : Bool :=
  c = ' ' || c = '\t' || c = '\n' || c = '\r' || c = '\x0b' || c = '\x0c'

/-- Python `s.strip()`. -/
def pyStrip (s : String) : String :=
  String.mk (((s.data.dropWhile isPySpace).reverse.dropWhile isPySpace).reverse)

/-- Python `list(dict.fromkeys(l))`: deduplicate keeping first occurrences,
as the dict-building left fold performs it. -/
def pyDictFromKeys (l : List String) : List String :=
  l.foldl (fun acc x => if x ∈ acc then acc else acc ++ [x]) []

/-- Recursive characterisation of first-occurrence deduplication: walk the
list keeping an element exactly when it has not been seen before. -/
def keepFirstAux (seen : List String) : List String → List String
  | [] => []
  | x :: xs =>
    if x ∈ seen then keepFirstAux seen xs
    else x :: keepFirstAux (seen ++ [x]) xs

/-- First-occurrence deduplication, specified independently of the
dict-building fold. -/
def keepFirst (l : List String) : List String :=
  keepFirstAux [] l

/-- Lexicographic code-point order on character lists: the string order
Python `sorted` uses. -/
def lexLe : List Char → List Char → Bool
  | [], _ => true
  | _ :: _, [] => false
  | a :: as, b :: bs =>
    if a.val.toNat < b.val.toNat then true
    else if b.val.toNat < a.val.toNat then false
    else lexLe as bs

/-- Python `a <= b` on strings. -/
def strLe (a b : String) : Bool :=
  lexLe a.data b.data

/-- Python `sorted` on strings: stable insertion of an element into a
sorted list. -/
def insertStr (x : String) : List String → List String
  | [] => [x]
  | y :: ys => if strLe x y then x :: y :: ys else y :: insertStr x ys

/-- Python `sorted(keys)`: ascending lexicographic sort. -/
def sortStrings : List String → List String
  | [] => []
  | x :: xs => insertStr x (sortStrings xs)

/-! ### `scripts/generate.py`: the typed entry model

`generate.py` works on entries already validated against the
`LanguageConfig` TypedDict, so its functions are embedded over a typed
record with optional fields. -/

/-- The `LanguageConfig` TypedDict of `common.py` as seen by
`generate.py`: required `name`/`zed_language`, optional detection
fields, optional `source`/`enabled`. -/
structure LanguageConfig where
  name : String
  zed_language : String
  extensions : Option (List String) := none
  suffixes : Option (List String) := none
  filenames : Option (List String) := none
  source : Option String := none
  enabled : Option Bool := none
  deriving DecidableEq

/-- The CLI flags of `generate.py`. -/
structure GenerateArgs where
  sort : Bool := false
  all : Bool := false
  native : Bool := false
  ext : Bool := false
  deriving DecidableEq

def JINJA_VARIANTS : List String := ["jinja", "jinja2", "j2"]

def EXCLUDE_LANGUAGES_WITHOUT_DETECTION : Bool := true

/-- `generate_path_suffixes`: each extension expanded with every jinja
variant, extensions sorted first. -/
def generate_path_suffixes (extensions : List String) : List String :=
  (sortStrings extensions).flatMap fun ext =>
    JINJA_VARIANTS.map fun variant => ext ++ "." ++ variant

/-- `get_detection_tokens` (generate.py): suffixes/filenames take
precedence over extensions when either is present; the combined list is
deduplicated via `dict.fromkeys`. -/
def get_detection_tokens (info : LanguageConfig) : List String :=
  if info.suffixes.isSome || info.filenames.isSome then
    pyDictFromKeys (info.suffixes.getD [] ++ info.filenames.getD [])
  else
    info.extensions.getD []

/-- `normalize_source`: `info.get("source", Source.EXTRA.value)`; the
Python `isinstance(source, Source)` branch collapses here because enum
members are modelled by their string values. -/
def normalize_source (info : LanguageConfig) : String :=
  info.source.getD "extra"

/-- `has_detection_tokens`. -/
def has_detection_tokens (info : LanguageConfig) : Bool :=
  !(get_detection_tokens info).isEmpty

/-- `should_include` (generate.py). -/
def should_include (info : LanguageConfig) (args : GenerateArgs) : Bool :=
  if EXCLUDE_LANGUAGES_WITHOUT_DETECTION && !has_detection_tokens info then
    false
  else if args.all then
    true
  else
    let source := normalize_source info
    if args.native && source == "native" then true
    else if args.ext && source == "extension" then true
    else if !args.native && !args.ext then
      source == "native" || source == "extension"
    else false

/-! ### `scripts/sync_zed_languages.py`: scraping helpers -/

/-- One transformation step of the `extract_extensions` loop body:
strip one leading `.`, then one leading `*` (plus a following `.`),
drop the pattern when a `*` or `/` remains or it became empty. -/
def extractExtensionsStep (suffix : String) : Option String :=
  let s1 := if strStartsWith suffix "." then strDrop1 suffix else suffix
  let s2 :=
    if strStartsWith s1 "*" then
      let t := strDrop1 s1
      if strStartsWith t "." then strDrop1 t else t
    else s1
  if strContains s2 '*' || strContains s2 '/' then none
  else if s2 = "" then none
  else some s2

/-- `extract_extensions` (sync_zed_languages.py). -/
def extract_extensions (path_suffixes : List String) : List String :=
  pyDictFromKeys (path_suffixes.filterMap extractExtensionsStep)

/-- `dedupe_strings` (sync_zed_languages.py). -/
def dedupe_strings (items : List String) : List String :=
  pyDictFromKeys items

/-- One loop iteration of `split_path_suffixes`: append the stripped
value to the bucket the chain of tests selects. -/
def splitStep (acc : List String × List String × List String) (rawValue : String) :
    List String × List String × List String :=
  let (sufs, fulls, others) := acc
  let value := pyStrip rawValue
  if value = "" then acc
  else if strContains value '/' then (sufs, fulls, others ++ [value])
  else if strContains value '*' then
    if strStartsWith value "*." && countChar value '*' == 1 then
      (sufs ++ [value], fulls, others)
    else (sufs, fulls, others ++ [value])
  else if strStartsWith value "." then (sufs ++ [value], fulls, others)
  else (sufs, fulls ++ [value], others)

/-- `split_path_suffixes` (sync_zed_languages.py). -/
def split_path_suffixes (path_suffixes : List String) :
    List String × List String × List String :=
  let (sufs, fulls, others) := path_suffixes.foldl splitStep ([], [], [])
  (dedupe_strings sufs, dedupe_strings fulls, dedupe_strings others)

/-! ### `scripts/sync_zed_languages.py`: reconciliation -/

/-- The `LanguageInfo` dataclass. -/
structure LanguageInfo where
  id : String
  name : String
  zed_language : String
  extensions : List String
  source : String
  syntax_signature : String := ""
  deriving DecidableEq

/-- Lookup in a Python dict keyed by strings (`zed_by_lang.get(key)`). -/
def infoGet (m : List (String × LanguageInfo)) (k : String) : Option LanguageInfo :=
  (m.find? (fun p => p.1 = k)).map (·.2)

/-- `info.get("zed_language", lang_id)` followed by use as a key of a
string-keyed dict / member of a string set: a present non-string value
never matches any string key, a missing field falls back to `lang_id`. -/
def entryZedKey (langId : String) (info : Entry) : Option String :=
  match dictGet info "zed_language" with
  | none => some langId
  | some (.str s) => some s
  | some _ => none

/-- `update_sources` loop body for one entry: recompute `source` from the
id-sets and store it when it changed. -/
def update_sources_entry (nativeIds extIds : List String) (langId : String)
    (info : Entry) : Entry :=
  let newSource :=
    match entryZedKey langId info with
    | some z => if z ∈ nativeIds then "native"
        else if z ∈ extIds then "extension" else "extra"
    | none => "extra"
  if dictGet info "source" = some (.str newSource) then info
  else dictSet info "source" (.str newSource)

/-- `update_sources` (sync_zed_languages.py): recompute every entry's
`source`, returning the updated config and the number of changes. -/
def update_sources (nativeIds extIds : List String) : Config → Config × Nat
  | [] => ([], 0)
  | (langId, info) :: rest =>
    let (rest', n) := update_sources nativeIds extIds rest
    let info' := update_sources_entry nativeIds extIds langId info
    ((langId, info') :: rest', if info' = info then n else n + 1)

/-- `get_config_detection_tokens` (sync_zed_languages.py): collect every
non-empty string out of the list-valued detection fields, in the fixed
key order suffixes, filenames, extensions. -/
def get_config_detection_tokens (info : Entry) : List String :=
  (["suffixes", "filenames", "extensions"]).flatMap fun key =>
    match dictGet info key with
    | some (.list values) => values.filterMap fun v =>
        match v with
        | .str s => if s = "" then none else some s
        | _ => none
    | _ => []

/-- `backfill_missing_detection_tokens` loop body for one entry. -/
def backfill_entry (zedByLang : List (String × LanguageInfo)) (langId : String)
    (info : Entry) : Entry :=
  if get_config_detection_tokens info ≠ [] then info
  else
    match (entryZedKey langId info).bind (infoGet zedByLang) with
    | none => info
    | some zedInfo =>
      if zedInfo.extensions = [] then info
      else dictSet info "extensions" (.list (zedInfo.extensions.map .str))

/-- `backfill_missing_detection_tokens` (sync_zed_languages.py): fill in
`extensions` from the remote match for entries with no detection tokens,
returning the updated config and the number of changes. -/
def backfill_missing_detection_tokens (zedByLang : List (String × LanguageInfo)) :
    Config → Config × Nat
  | [] => ([], 0)
  | (langId, info) :: rest =>
    let (rest', n) := backfill_missing_detection_tokens zedByLang rest
    let info' := backfill_entry zedByLang langId info
    ((langId, info') :: rest', if info' = info then n else n + 1)

/-! ### `scripts/common.py`: validation and serialization -/

def REQUIRED_LANG_FIELDS : List String := ["name", "zed_language"]
def DETECTION_FIELDS : List String := ["extensions", "suffixes", "filenames"]

/-- The values of the `Source` enum, in declaration order. -/
def VALID_SOURCES : List String := ["native", "extension", "extra"]

/-- `isinstance(v, str)`. -/
def Value.isStr : Value → Bool
  | .str _ => true
  | _ => false

/-- `validate_config_entry` (common.py): all errors of one entry, in the
order the source emits them. -/
def validate_config_entry (langId : String) (info : Entry) : List String :=
  let requiredErrors := REQUIRED_LANG_FIELDS.filterMap fun field =>
    if dictHas info field then none
    else some ("[" ++ langId ++ "] missing required field: " ++ field)
  let detectionPresenceErrors :=
    if DETECTION_FIELDS.any (fun field => dictHas info field) then []
    else ["[" ++ langId ++
      "] missing detection fields: one of ['extensions', 'suffixes', 'filenames'] is required"]
  let detectionTypeErrors := DETECTION_FIELDS.flatMap fun field =>
    match dictGet info field with
    | none => []
    | some (.list items) =>
      if items.any (fun item => !item.isStr) then
        ["[" ++ langId ++ "] '" ++ field ++ "' must contain only strings"]
      else []
    | some _ => ["[" ++ langId ++ "] '" ++ field ++ "' must be a list"]
  let sourceErrors :=
    match dictGet info "source" with
    | none => []
    | some v =>
      let ok : Bool := match v with
        | .str s => decide (s ∈ VALID_SOURCES)
        | _ => false
      if ok then []
      else ["[" ++ langId ++ "] invalid source '" ++ pyStr v ++
        "', must be one of: ['native', 'extension', 'extra']"]
  requiredErrors ++ detectionPresenceErrors ++ detectionTypeErrors ++ sourceErrors

/-- `validate_config` (common.py): `fail` / `fail_many` are modelled as
`Except.error` carrying the reported messages. -/
def validate_config (config : Config) : Except (List String) Unit :=
  if config.isEmpty then .error ["Config is empty"]
  else
    let errors := config.flatMap fun p => validate_config_entry p.1 p.2
    if errors.isEmpty then .ok () else .error errors

/-- The fixed comment header `save_config` writes. -/
def CONFIG_HEADER : List String :=
  ["# Languages configuration for jinja-universal",
   "# source: native (Zed built-in), extension (Zed extension), extra (manual)",
   ""]

/-- `", ".join(f'"{e}"' for e in values)`. -/
def joinQuoted : List Value → String
  | [] => ""
  | [v] => "\"" ++ pyStr v ++ "\""
  | v :: rest => "\"" ++ pyStr v ++ "\"" ++ ", " ++ joinQuoted rest

/-- One iteration of the `save_config` detection loop: write the field
line and set `detection_written` when the field is present with a list
value, else continue. -/
def detFoldStep (info : Entry) (acc : List String × Bool) (field : String) :
    List String × Bool :=
  match dictGet info field with
  | some (.list values) =>
    (acc.1 ++ [field ++ " = [" ++ joinQuoted values ++ "]"], true)
  | some _ => acc
  | none => acc

/-- The lines `save_config` emits for one entry; `none` models the
`KeyError` Python would raise if `name` or `zed_language` is missing. -/
def entry_lines (langId : String) (info : Entry) : Option (List String) :=
  match dictGet info "name", dictGet info "zed_language" with
  | some nameV, some zedV =>
    let detState := DETECTION_FIELDS.foldl (detFoldStep info) ([], false)
    let detLines := if detState.2 then detState.1 else ["extensions = []"]
    let sourceStr := match dictGet info "source" with
      | some v => pyStr v
      | none => "extra"
    some (["[" ++ langId ++ "]",
           "name = \"" ++ pyStr nameV ++ "\"",
           "zed_language = \"" ++ pyStr zedV ++ "\""]
          ++ detLines
          ++ ["source = \"" ++ sourceStr ++ "\"", ""])
  | _, _ => none

/-- `save_config` (common.py): header plus the per-entry blocks in
ascending `lang_id` order, as the list of written lines. -/
def save_config (config : Config) : Option (List String) :=
  (sortStrings (config.map Prod.fst)).foldlM
    (fun acc langId => do
      let info ← cfgGet config langId
      let ls ← entry_lines langId info
      pure (acc ++ ls))
    CONFIG_HEADER

/-! ### Spec-side characterisations

Definitions written from the spec's (or the amended claims') words, to be
compared with the embeddings above. -/

/-- Spec-side bucket predicate: a suffix pattern is a `/`-free pattern
that either starts with `*.` and contains exactly one `*`, or contains no
`*` and starts with `.`. -/
def isSuffixPattern (v : String) : Bool :=
  !strContains v '/' &&
    ((strStartsWith v "*." && countChar v '*' == 1) ||
     (!strContains v '*' && strStartsWith v "."))

/-- Spec-side bucket predicate: a full filename is a pattern containing
no `/` and no `*` and not starting with `.`. -/
def isFullFilenamePattern (v : String) : Bool :=
  !strContains v '/' && !strContains v '*' && !strStartsWith v "."

/-- Spec-side bucket predicate: everything else — `/`-containing
patterns, and `*`-containing patterns not of the simple `*.x` shape. -/
def isOtherPattern (v : String) : Bool :=
  strContains v '/' ||
    (strContains v '*' && !(strStartsWith v "*." && countChar v '*' == 1))

/-- The stripped, non-empty patterns of a `split_path_suffixes` input. -/
def cleanedPatterns (path_suffixes : List String) : List String :=
  (path_suffixes.map pyStrip).filter (fun v => v ≠ "")

/-- The detection lines of the given fields that carry a list value. -/
def detLinesOver (info : Entry) (fields : List String) : List String :=
  fields.filterMap fun field =>
    match dictGet info field with
    | some (.list values) => some (field ++ " = [" ++ joinQuoted values ++ "]")
    | _ => none

/-- Spec-side per-entry serialization: header, `name`, `zed_language`,
every detection field present with a list value (in the fixed field
order), an `extensions = []` fallback when none is, and a `source` line
defaulting to `extra`. -/
def entry_lines_spec (langId : String) (info : Entry) : List String :=
  let detLines := detLinesOver info DETECTION_FIELDS
  ["[" ++ langId ++ "]",
   "name = \"" ++ pyStr ((dictGet info "name").getD (.str "")) ++ "\"",
   "zed_language = \"" ++ pyStr ((dictGet info "zed_language").getD (.str "")) ++ "\""]
  ++ (if detLines.isEmpty then ["extensions = []"] else detLines)
  ++ ["source = \"" ++ pyStr ((dictGet info "source").getD (.str "extra")) ++ "\"", ""]

/-! ### The persisted-registry text and its parser

`save_config` joins its lines with newlines; reading the file back goes
through `tomllib`, which the spec treats as an external capability
("converting between text and key/value structures").  The parser below
is therefore *modelled from the spec*: a key/value parser for the
restricted TOML subset the registry uses (comment lines, `[section]`
headers, `key = "string"` and `key = ["list", "of", "strings"]` lines). -/

/-- `"\n".join(lines)`. -/
def joinLines : List String → String
  | [] => ""
  | [l] => l
  | l :: ls => l ++ "\n" ++ joinLines ls

/-- Split a character stream at newlines. -/
def splitNlChars : List Char → List (List Char)
  | [] => [[]]
  | c :: rest =>
    if c = '\n' then [] :: splitNlChars rest
    else
      match splitNlChars rest with
      | l :: ls => (c :: l) :: ls
      | [] => [[c]]

/-- Split a text into lines. -/
def splitLines (s : String) : List String :=
  (splitNlChars s.data).map String.mk

/-- Modelled from the spec: scan a basic string to its closing quote,
returning contents and remainder. -/
def scanQuoted : List Char → Option (List Char × List Char)
  | [] => none
  | c :: rest =>
    if c = '"' then some ([], rest)
    else (scanQuoted rest).map (fun p => (c :: p.1, p.2))

/-- Modelled from the spec: parse the items of a string list after the
opening bracket, up to a closing bracket ending the value. -/
def parseListBody : Nat → List Char → Option (List String)
  | _, [']'] => some []
  | 0, _ => none
  | fuel + 1, '"' :: rest =>
    match scanQuoted rest with
    | some (s, [']']) => some [String.mk s]
    | some (s, ',' :: ' ' :: r2) => (parseListBody fuel r2).map (String.mk s :: ·)
    | _ => none
  | _ + 1, _ => none

/-- Modelled from the spec: parse the text of a TOML value (string or
list of strings). -/
def parseValueChars : List Char → Option Value
  | '"' :: rest =>
    match scanQuoted rest with
    | some (s, []) => some (.str (String.mk s))
    | _ => none
  | '[' :: rest => (parseListBody rest.length rest).map (fun items => .list (items.map .str))
  | _ => none

/-- Modelled from the spec: a `[section]` header line. -/
def splitSection (line : String) : Option String :=
  match line.data with
  | '[' :: rest =>
    if rest.getLast? = some ']' then some (String.mk rest.dropLast) else none
  | _ => none

/-- A character that does not end a TOML bare key. -/
def notSpace (c : Char) : Bool :=
  c ≠ ' '

/-- Modelled from the spec: a `key = value` line. -/
def parseKeyValue (line : String) : Option (String × Value) :=
  let cs := line.data
  let key := cs.takeWhile notSpace
  match cs.dropWhile notSpace with
  | ' ' :: '=' :: ' ' :: valChars =>
    (parseValueChars valChars).map (fun v => (String.mk key, v))
  | _ => none

/-- Modelled from the spec: the effect of one line on the parser state
(finished sections, currently open section). -/
def parseLineStep (st : Config × Option (String × Entry)) (line : String) :
    Option (Config × Option (String × Entry)) :=
  if line = "" then some st
  else if strStartsWith line "#" then some st
  else if strStartsWith line "[" then
    match splitSection line with
    | some sectionId => some (st.1 ++ st.2.toList, some (sectionId, []))
    | none => none
  else
    match st.2, parseKeyValue line with
    | some (sectionId, e), some (k, v) => some (st.1, some (sectionId, dictSet e k v))
    | _, _ => none

/-- Modelled from the spec: line-by-line table parser, closing the last
open section at the end of input. -/
def parseLinesAux (lines : List String) (done : Config)
    (cur : Option (String × Entry)) : Option Config :=
  (lines.foldlM parseLineStep (done, cur)).map (fun st => st.1 ++ st.2.toList)

/-- Modelled from the spec: the external TOML-parsing capability,
restricted to the registry's subset.  `normalize_config` collapses to
the identity here because the parser already yields string-keyed tables. -/
def parseToml (text : String) : Option Config :=
  parseLinesAux (splitLines text) [] none

/-- `load_config` (common.py): an absent file yields the empty config;
an existing file goes through the parsing capability. -/
def load_config (fileExists : Bool) (text : String) : Option Config :=
  if fileExists then parseToml text else some []

/-- The detection fields of an entry that carry a list value, with their
original value lists, in the fixed field order. -/
def detPairsOfList (info : Entry) : List (String × List Value) :=
  DETECTION_FIELDS.filterMap fun field =>
    match dictGet info field with
    | some (.list values) => some (field, values)
    | _ => none

/-- The entry obtained by saving an entry and parsing it back. -/
def reloadEntry (info : Entry) : Entry :=
  let detPairs := (detPairsOfList info).map fun p =>
    (p.1, Value.list (p.2.map (fun v => Value.str (pyStr v))))
  [("name", Value.str (pyStr ((dictGet info "name").getD (.str "")))),
   ("zed_language", Value.str (pyStr ((dictGet info "zed_language").getD (.str ""))))]
  ++ (if detPairs.isEmpty then [("extensions", Value.list [])] else detPairs)
  ++ [("source", Value.str (pyStr ((dictGet info "source").getD (.str "extra"))))]

/-- The character stream of a serialized string list after its opening
bracket. -/
def listBodyChars : List String → List Char
  | [] => [']']
  | [s] => '"' :: s.data ++ ['"', ']']
  | s :: rest => '"' :: s.data ++ ['"', ',', ' '] ++ listBodyChars rest

/-- Join character lines with newlines. -/
def charJoin : List (List Char) → List Char
  | [] => []
  | [l] => l
  | l :: ls => l ++ '\n' :: charJoin ls

/-- No newline and no double quote: the characters that would break the
registry's naive quoting. -/
def cleanCharsB (l : List Char) : Bool :=
  !l.contains '\n' && !l.contains '"'

/-- An entry whose printed field values survive the save/parse round
trip: required fields present, every printed string clean. -/
def entrySerializableB (e : Entry) : Bool :=
  (match dictGet e "name" with
   | some v => cleanCharsB (pyStr v).data
   | none => false) &&
  (match dictGet e "zed_language" with
   | some v => cleanCharsB (pyStr v).data
   | none => false) &&
  DETECTION_FIELDS.all (fun field =>
    match dictGet e field with
    | some (.list values) => values.all (fun v => cleanCharsB (pyStr v).data)
    | _ => true) &&
  (match dictGet e "source" with
   | some v => cleanCharsB (pyStr v).data
   | none => true)

/-- A config that serializes to well-formed registry text: unique clean
ids, serializable entries. -/
def configSerializableB (cfg : Config) : Bool :=
  (cfg.map Prod.fst).Nodup &&
  cfg.all (fun p => !p.1.data.contains '\n' && entrySerializableB p.2)

/-! ### Helper lemmas: first-occurrence deduplication -/

theorem foldlDedup_eq (l : List String) (acc : List String) :
    l.foldl (fun acc x => if x ∈ acc then acc else acc ++ [x]) acc =
      acc ++ keepFirstAux acc l := by
  induction l generalizing acc with
  | nil => simp [keepFirstAux]
  | cons x xs ih =>
    by_cases hx : x ∈ acc
    · rw [List.foldl_cons, if_pos hx, keepFirstAux, if_pos hx, ih]
    · rw [List.foldl_cons, if_neg hx, keepFirstAux, if_neg hx, ih,
        List.append_assoc, List.singleton_append]

theorem pyDictFromKeys_eq_keepFirst (l : List String) :
    pyDictFromKeys l = keepFirst l := by
  have h := foldlDedup_eq l []
  simpa [pyDictFromKeys, keepFirst] using h

/-! ### Helper lemmas: the string sort -/

theorem lexLe_total : ∀ as bs : List Char, lexLe as bs = true ∨ lexLe bs as = true
  | [], _ => Or.inl rfl
  | _ :: _, [] => Or.inr rfl
  | a :: as, b :: bs => by
    rcases Nat.lt_trichotomy a.val.toNat b.val.toNat with h | h | h
    · left; simp [lexLe, h]
    · rcases lexLe_total as bs with ih | ih
      · left; simp [lexLe, h, ih]
      · right; simp [lexLe, h, ih]
    · right; simp [lexLe, h]

theorem lexLe_trans : ∀ as bs cs : List Char,
    lexLe as bs = true → lexLe bs cs = true → lexLe as cs = true
  | [], _, _, _, _ => rfl
  | _ :: _, [], _, h1, _ => by simp [lexLe] at h1
  | _ :: _, _ :: _, [], _, h2 => by simp [lexLe] at h2
  | a :: as, b :: bs, c :: cs, h1, h2 => by
    simp only [lexLe] at h1 h2 ⊢
    rcases Nat.lt_trichotomy a.val.toNat b.val.toNat with hab | hab | hab
    · rcases Nat.lt_trichotomy b.val.toNat c.val.toNat with hbc | hbc | hbc
      · rw [if_pos (by omega)]
      · rw [if_pos (by omega)]
      · rw [if_neg (by omega), if_pos (by omega)] at h2
        exact absurd h2 (by simp)
    · rcases Nat.lt_trichotomy b.val.toNat c.val.toNat with hbc | hbc | hbc
      · rw [if_pos (by omega)]
      · rw [if_neg (by omega), if_neg (by omega)] at h1 h2 ⊢
        exact lexLe_trans as bs cs h1 h2
      · rw [if_neg (by omega), if_pos (by omega)] at h2
        exact absurd h2 (by simp)
    · rw [if_neg (by omega), if_pos (by omega)] at h1
      exact absurd h1 (by simp)

theorem strLe_total (a b : String) : strLe a b = true ∨ strLe b a = true :=
  lexLe_total a.data b.data

theorem strLe_trans {a b c : String} (h1 : strLe a b = true) (h2 : strLe b c = true) :
    strLe a c = true :=
  lexLe_trans a.data b.data c.data h1 h2

/-- The sortedness predicate of the emitted key order. -/
def StrSorted (l : List String) : Prop :=
  l.Pairwise (fun a b => strLe a b = true)

theorem insertStr_perm (x : String) (l : List String) :
    (insertStr x l).Perm (x :: l) := by
  induction l with
  | nil => exact List.Perm.refl _
  | cons y ys ih =>
    rw [insertStr]
    split
    · exact List.Perm.refl _
    · exact (List.Perm.cons y ih).trans (List.Perm.swap x y ys)

theorem insertStr_sorted (x : String) (l : List String) (h : StrSorted l) :
    StrSorted (insertStr x l) := by
  induction l with
  | nil => simp [insertStr, StrSorted]
  | cons y ys ih =>
    rw [insertStr]
    rcases List.pairwise_cons.mp h with ⟨hy, hys⟩
    split
    · rename_i hxy
      refine List.pairwise_cons.mpr ⟨?_, h⟩
      intro z hz
      rcases List.mem_cons.mp hz with hz1 | hz1
      · subst hz1; exact hxy
      · exact strLe_trans hxy (hy _ hz1)
    · rename_i hxy
      have hyx : strLe y x = true := by
        rcases strLe_total x y with htot | htot
        · exact absurd htot hxy
        · exact htot
      refine List.pairwise_cons.mpr ⟨?_, ih hys⟩
      intro z hz
      rcases List.mem_cons.mp ((insertStr_perm x ys).mem_iff.mp hz) with hz1 | hz1
      · subst hz1; exact hyx
      · exact hy _ hz1

theorem sortStrings_perm (l : List String) : (sortStrings l).Perm l := by
  induction l with
  | nil => exact List.Perm.refl _
  | cons x xs ih =>
    exact (insertStr_perm x (sortStrings xs)).trans (List.Perm.cons x ih)

theorem sortStrings_sorted (l : List String) : StrSorted (sortStrings l) := by
  induction l with
  | nil => exact List.Pairwise.nil
  | cons x xs ih => exact insertStr_sorted x (sortStrings xs) ih

theorem sortStrings_of_sorted : ∀ l : List String, StrSorted l → sortStrings l = l
  | [], _ => rfl
  | x :: xs, h => by
    rcases List.pairwise_cons.mp h with ⟨hx, hxs⟩
    rw [sortStrings, sortStrings_of_sorted xs hxs]
    cases xs with
    | nil => rfl
    | cons y ys => rw [insertStr, if_pos (hx y (List.mem_cons_self y ys))]

/-! ### Helper lemmas: dictionaries -/

theorem dictGet_dictSet_self (e : Entry) (k : String) (v : Value) :
    dictGet (dictSet e k v) k = some v := by
  induction e with
  | nil => simp [dictSet, dictGet, List.find?]
  | cons p rest ih =>
    cases p with
    | mk k' v' =>
      by_cases hp : k' = k
      · simp [dictSet, hp, dictGet, List.find?]
      · rw [dictSet, if_neg hp]
        rw [dictGet] at ih ⊢
        rw [List.find?]
        simp only [decide_eq_false hp]
        exact ih

theorem mem_keys_cfgGet (cfg : Config) (langId : String)
    (h : langId ∈ cfg.map Prod.fst) :
    ∃ e, cfgGet cfg langId = some e ∧ (langId, e) ∈ cfg := by
  induction cfg with
  | nil => simp at h
  | cons p rest ih =>
    cases p with
    | mk k e0 =>
      by_cases hp : k = langId
      · subst hp
        exact ⟨e0, by simp [cfgGet, List.find?], List.mem_cons_self _ _⟩
      · rw [List.map_cons] at h
        rcases List.mem_cons.mp h with h1 | h1
        · exact absurd h1.symm hp
        · rcases ih h1 with ⟨e, he, hmem⟩
          refine ⟨e, ?_, List.mem_cons_of_mem _ hmem⟩
          rw [cfgGet] at he ⊢
          rw [List.find?]
          simp only [decide_eq_false hp]
          exact he

/-! ### Helper lemmas: the split buckets -/

theorem startsWith_star_dot_contains (v : String)
    (h : strStartsWith v "*." = true) : strContains v '*' = true := by
  unfold strStartsWith at h
  unfold strContains
  have hpre : ("*." : String).data = ['*', '.'] := rfl
  rw [hpre] at h
  cases hv : v.data with
  | nil => rw [hv] at h; simp [List.isPrefixOf] at h
  | cons c rest =>
    rw [hv] at h
    simp only [List.isPrefixOf, Bool.and_eq_true, beq_iff_eq] at h
    rcases h with ⟨hc, _⟩
    subst hc
    simp

theorem cleanedPatterns_cons (p : String) (ps : List String) :
    cleanedPatterns (p :: ps) =
      if pyStrip p = "" then cleanedPatterns ps
      else pyStrip p :: cleanedPatterns ps := by
  by_cases h : pyStrip p = "" <;>
    simp [cleanedPatterns, List.filter_cons, h]

theorem foldl_splitStep (ps : List String) (a b c : List String) :
    ps.foldl splitStep (a, b, c) =
      (a ++ (cleanedPatterns ps).filter isSuffixPattern,
       b ++ (cleanedPatterns ps).filter isFullFilenamePattern,
       c ++ (cleanedPatterns ps).filter isOtherPattern) := by
  induction ps generalizing a b c with
  | nil => simp [cleanedPatterns]
  | cons p ps ih =>
    rw [List.foldl_cons, cleanedPatterns_cons]
    by_cases hv : pyStrip p = ""
    · have hstep : splitStep (a, b, c) p = (a, b, c) := by
        simp [splitStep, hv]
      rw [hstep, ih, if_pos hv]
    · rw [if_neg hv]
      by_cases h1 : strContains (pyStrip p) '/'
      · have hstep : splitStep (a, b, c) p = (a, b, c ++ [pyStrip p]) := by
          simp [splitStep, hv, h1]
        have hs : isSuffixPattern (pyStrip p) = false := by
          simp [isSuffixPattern, h1]
        have hf : isFullFilenamePattern (pyStrip p) = false := by
          simp [isFullFilenamePattern, h1]
        have ho : isOtherPattern (pyStrip p) = true := by
          simp [isOtherPattern, h1]
        rw [hstep, ih]
        simp [List.filter_cons, hs, hf, ho]
      · by_cases h2 : strContains (pyStrip p) '*'
        · by_cases h3 : (strStartsWith (pyStrip p) "*." && countChar (pyStrip p) '*' == 1)
          · have hstep : splitStep (a, b, c) p = (a ++ [pyStrip p], b, c) := by
              simp only [splitStep]
              rw [if_neg hv, if_neg (by simpa using h1), if_pos (by simpa using h2), if_pos h3]
            have hs : isSuffixPattern (pyStrip p) = true := by
              simp only [isSuffixPattern, h1, Bool.not_false, Bool.true_and]
              rw [h3]
              simp
            have hf : isFullFilenamePattern (pyStrip p) = false := by
              simp [isFullFilenamePattern, h1, h2]
            have ho : isOtherPattern (pyStrip p) = false := by
              simp [isOtherPattern, h1, h2, h3]
            rw [hstep, ih]
            simp [List.filter_cons, hs, hf, ho]
          · have hstep : splitStep (a, b, c) p = (a, b, c ++ [pyStrip p]) := by
              simp only [splitStep]
              rw [if_neg hv, if_neg (by simpa using h1), if_pos (by simpa using h2), if_neg h3]
            have h3' : (strStartsWith (pyStrip p) "*." && countChar (pyStrip p) '*' == 1) = false :=
              Bool.eq_false_iff.mpr h3
            have hs : isSuffixPattern (pyStrip p) = false := by
              simp [isSuffixPattern, h1, h2, h3']
            have hf : isFullFilenamePattern (pyStrip p) = false := by
              simp [isFullFilenamePattern, h1, h2]
            have ho : isOtherPattern (pyStrip p) = true := by
              simp [isOtherPattern, h1, h2, h3']
            rw [hstep, ih]
            simp [List.filter_cons, hs, hf, ho]
        · by_cases h4 : strStartsWith (pyStrip p) "."
          · have hstep : splitStep (a, b, c) p = (a ++ [pyStrip p], b, c) := by
              simp only [splitStep]
              rw [if_neg hv, if_neg (by simpa using h1), if_neg (by simpa using h2), if_pos h4]
            have hnsd : strStartsWith (pyStrip p) "*." = false := by
              rw [Bool.eq_false_iff]
              intro hcontra
              rw [startsWith_star_dot_contains _ hcontra] at h2
              simp at h2
            have hs : isSuffixPattern (pyStrip p) = true := by
              simp [isSuffixPattern, h1, h2, h4, hnsd]
            have hf : isFullFilenamePattern (pyStrip p) = false := by
              simp [isFullFilenamePattern, h1, h2, h4]
            have ho : isOtherPattern (pyStrip p) = false := by
              simp [isOtherPattern, h1, h2]
            rw [hstep, ih]
            simp [List.filter_cons, hs, hf, ho]
          · have hstep : splitStep (a, b, c) p = (a, b ++ [pyStrip p], c) := by
              simp only [splitStep]
              rw [if_neg hv, if_neg (by simpa using h1), if_neg (by simpa using h2), if_neg (by simpa using h4)]
            have hnsd : strStartsWith (pyStrip p) "*." = false := by
              rw [Bool.eq_false_iff]
              intro hcontra
              rw [startsWith_star_dot_contains _ hcontra] at h2
              simp at h2
            have hs : isSuffixPattern (pyStrip p) = false := by
              simp [isSuffixPattern, h1, h2, h4, hnsd]
            have hf : isFullFilenamePattern (pyStrip p) = true := by
              simp [isFullFilenamePattern, h1, h2, h4]
            have ho : isOtherPattern (pyStrip p) = false := by
              simp [isOtherPattern, h1, h2]
            rw [hstep, ih]
            simp [List.filter_cons, hs, hf, ho]

/-- Merging adjacent string-literal appends. -/
theorem str_merge (x b c a : String) (h : b ++ c = a) : x ++ b ++ c = x ++ a := by
  rw [String.append_assoc, h]

/-! ### Claims -/

/-- C9: `extract_extensions` on the spec's example input drops the
glob-containing, path-containing and empty patterns, strips the leading
`.`/`*` markers and deduplicates keeping first occurrences. -/
theorem extract_extensions_example :
    extract_extensions [".py", "*.jinja", "*abc", "a/b", "", "txt", ".py"] =
      ["py", "jinja", "abc", "txt"] := by decide

/-- C1 (counterexample): with `--native` and `--ext` both set and
`--all` unset, a native-source entry with detection tokens is included,
so `should_include` does not exclude every entry. -/
theorem should_include_both_filters_counterexample :
    should_include
      { name := "Python", zed_language := "python", extensions := some ["py"],
        source := some "native" }
      { sort := false, all := false, native := true, ext := true } = true := by
  decide

/-- C1 (amended): with `--native` and `--ext` both set and `--all`
unset, `should_include` keeps exactly the entries that have detection
tokens and whose normalized source is `native` or `extension`; everything
else (in particular every `extra` entry) is excluded. -/
theorem should_include_both_filters_spec (info : LanguageConfig) :
    should_include info { sort := false, all := false, native := true, ext := true } =
      (has_detection_tokens info &&
        (normalize_source info == "native" || normalize_source info == "extension")) := by
  unfold should_include
  cases hd : has_detection_tokens info
  · simp [EXCLUDE_LANGUAGES_WITHOUT_DETECTION, hd]
  · cases hn : (normalize_source info == "native") <;>
      cases he : (normalize_source info == "extension") <;>
      simp [EXCLUDE_LANGUAGES_WITHOUT_DETECTION, hd, hn, he]

/-- C4: `get_detection_tokens` returns the concatenation of `suffixes`
then `filenames` deduplicated keeping first occurrences whenever either
field is present (even as an empty list), ignoring `extensions`; and the
`extensions` list (or `[]` when absent) otherwise. -/
theorem get_detection_tokens_spec (info : LanguageConfig) :
    get_detection_tokens info =
      if info.suffixes.isSome || info.filenames.isSome then
        keepFirst (info.suffixes.getD [] ++ info.filenames.getD [])
      else
        info.extensions.getD [] := by
  unfold get_detection_tokens
  by_cases h : (info.suffixes.isSome || info.filenames.isSome : Bool)
  · rw [if_pos h, if_pos h, pyDictFromKeys_eq_keepFirst]
  · rw [if_neg h, if_neg h]

/-- C10: `validate_config` rejects the empty config with an error, even
though `load_config` returns the empty config when the file is missing. -/
theorem validate_config_rejects_empty (text : String) :
    load_config false text = some [] ∧
    validate_config ([] : Config) = .error ["Config is empty"] :=
  ⟨rfl, rfl⟩

/-- C8 (counterexample): the dot-containing bare token `a.b` is placed
into the `full_filenames` bucket, so `full_filenames` does not contain
only tokens free of `.`. -/
theorem split_path_suffixes_counterexample :
    split_path_suffixes ["a.b"] = ([], ["a.b"], []) ∧
    strContains "a.b" '.' = true := by decide

/-- C8 (amended): `split_path_suffixes` buckets the non-empty stripped
patterns, deduplicated keeping first occurrences: `suffixes` holds the
`/`-free patterns that either start with `*.` with exactly one `*` or
contain no `*` and start with `.`; `full_filenames` holds the patterns
containing no `/` and no `*` and not starting with `.`; `other_patterns`
holds the rest. -/
theorem split_path_suffixes_buckets (path_suffixes : List String) :
    split_path_suffixes path_suffixes =
      (keepFirst ((cleanedPatterns path_suffixes).filter isSuffixPattern),
       keepFirst ((cleanedPatterns path_suffixes).filter isFullFilenamePattern),
       keepFirst ((cleanedPatterns path_suffixes).filter isOtherPattern)) := by
  unfold split_path_suffixes
  rw [foldl_splitStep]
  simp [dedupe_strings, pyDictFromKeys_eq_keepFirst]

/-- C7: `validate_config_entry` collects all violations of one entry in
one pass: on `{"name": "N"}` it reports at least two errors, among them
the missing required `zed_language` and the missing detection fields; on
`{"extensions": "bad"}` it reports a type error naming `extensions`. -/
theorem validate_config_entry_reports (langId : String) :
    2 ≤ (validate_config_entry langId [("name", .str "N")]).length ∧
    ("[" ++ langId ++ "] missing required field: zed_language") ∈
      validate_config_entry langId [("name", .str "N")] ∧
    ("[" ++ langId ++ "] missing detection fields: one of ['extensions', 'suffixes', 'filenames'] is required") ∈
      validate_config_entry langId [("name", .str "N")] ∧
    ("[" ++ langId ++ "] 'extensions' must be a list") ∈
      validate_config_entry langId [("extensions", .str "bad")] := by
  have h1 : validate_config_entry langId [("name", Value.str "N")] =
      ["[" ++ langId ++ "] missing required field: " ++ "zed_language",
       "[" ++ langId ++ "] missing detection fields: one of ['extensions', 'suffixes', 'filenames'] is required"] := rfl
  have h2 : validate_config_entry langId [("extensions", Value.str "bad")] =
      ["[" ++ langId ++ "] missing required field: " ++ "name",
       "[" ++ langId ++ "] missing required field: " ++ "zed_language",
       "[" ++ langId ++ "] '" ++ "extensions" ++ "' must be a list"] := rfl
  refine ⟨?_, ?_, ?_, ?_⟩
  · rw [h1]; simp
  · rw [h1, ← str_merge ("[" ++ langId) "] missing required field: " "zed_language"
      "] missing required field: zed_language" (by decide)]
    simp
  · rw [h1]; simp
  · rw [h2, ← str_merge ("[" ++ langId) "] 'extensions" "' must be a list"
        "] 'extensions' must be a list" (by decide),
      ← str_merge ("[" ++ langId) "] '" "extensions" "] 'extensions" (by decide)]
    simp

theorem mem_update_sources (nativeIds extIds : List String) (cfg : Config)
    (langId : String) (e : Entry) (h : (langId, e) ∈ cfg) :
    (langId, update_sources_entry nativeIds extIds langId e) ∈
      (update_sources nativeIds extIds cfg).1 := by
  induction cfg with
  | nil => simp at h
  | cons p rest ih =>
    cases p with
    | mk id0 e0 =>
      have hfst : (update_sources nativeIds extIds ((id0, e0) :: rest)).1 =
          (id0, update_sources_entry nativeIds extIds id0 e0) ::
            (update_sources nativeIds extIds rest).1 := rfl
      rw [hfst]
      rcases List.mem_cons.mp h with h1 | h1
      · rw [Prod.mk.injEq] at h1
        rcases h1 with ⟨h1a, h1b⟩
        subst h1a; subst h1b
        exact List.mem_cons_self _ _
      · exact List.mem_cons_of_mem _ (ih h1)

/-- C3: `update_sources` recomputes every entry's `source` from the
id-sets — `native` when the entry's `zed_language` is in `native_ids`,
else `extension` when it is in the extension id-set, else `extra` —
regardless of the previous `source` value. -/
theorem update_sources_spec (nativeIds extIds : List String) (cfg : Config)
    (langId : String) (e : Entry) (z : String)
    (hmem : (langId, e) ∈ cfg)
    (hz : dictGet e "zed_language" = some (.str z)) :
    (langId, update_sources_entry nativeIds extIds langId e) ∈
      (update_sources nativeIds extIds cfg).1 ∧
    dictGet (update_sources_entry nativeIds extIds langId e) "source" =
      some (.str (if z ∈ nativeIds then "native"
        else if z ∈ extIds then "extension" else "extra")) := by
  refine ⟨mem_update_sources _ _ _ _ _ hmem, ?_⟩
  unfold update_sources_entry
  have hkey : entryZedKey langId e = some z := by rw [entryZedKey, hz]
  rw [hkey]
  by_cases hcur : dictGet e "source" =
      some (.str (if z ∈ nativeIds then "native"
        else if z ∈ extIds then "extension" else "extra"))
  · rw [if_pos hcur]; exact hcur
  · rw [if_neg hcur]; exact dictGet_dictSet_self e "source" _

/-- C3 (witness): the spec theorem applied to a one-entry config whose
`zed_language` is in the native id-set. -/
theorem update_sources_spec_witness :
    (("x", update_sources_entry ["x"] [] "x"
        [("name", Value.str "X"), ("zed_language", .str "x"), ("source", .str "extra")]) ∈
      (update_sources ["x"] []
        [("x", [("name", Value.str "X"), ("zed_language", .str "x"),
                ("source", .str "extra")])]).1) ∧
    dictGet (update_sources_entry ["x"] [] "x"
        [("name", Value.str "X"), ("zed_language", .str "x"), ("source", .str "extra")])
        "source" =
      some (.str (if "x" ∈ ["x"] then "native"
        else if "x" ∈ ([] : List String) then "extension" else "extra")) :=
  update_sources_spec ["x"] [] _ "x" _ "x" (by decide) (by decide)

theorem mem_backfill (zedByLang : List (String × LanguageInfo)) (cfg : Config)
    (langId : String) (e : Entry) (h : (langId, e) ∈ cfg) :
    (langId, backfill_entry zedByLang langId e) ∈
      (backfill_missing_detection_tokens zedByLang cfg).1 := by
  induction cfg with
  | nil => simp at h
  | cons p rest ih =>
    cases p with
    | mk id0 e0 =>
      have hfst : (backfill_missing_detection_tokens zedByLang ((id0, e0) :: rest)).1 =
          (id0, backfill_entry zedByLang id0 e0) ::
            (backfill_missing_detection_tokens zedByLang rest).1 := rfl
      rw [hfst]
      rcases List.mem_cons.mp h with h1 | h1
      · rw [Prod.mk.injEq] at h1
        rcases h1 with ⟨h1a, h1b⟩
        subst h1a; subst h1b
        exact List.mem_cons_self _ _
      · exact List.mem_cons_of_mem _ (ih h1)

/-- C2 (counterexample): an entry whose `extensions` field is present as
an empty list is still modified by backfill when a remote match with
non-empty extensions exists. -/
theorem backfill_counterexample :
    dictHas [("name", Value.str "A"), ("zed_language", .str "a"),
             ("extensions", .list [])] "extensions" = true ∧
    (backfill_missing_detection_tokens
        [("a", { id := "a", name := "A", zed_language := "a",
                 extensions := ["aa"], source := "native" })]
        [("a", [("name", Value.str "A"), ("zed_language", .str "a"),
                ("extensions", .list [])])]).1 =
      [("a", [("name", Value.str "A"), ("zed_language", .str "a"),
              ("extensions", .list [.str "aa"])])] := by decide

/-- C2 (amended): backfill modifies only entries whose detection-token
list is empty (no non-empty string in any list-valued detection field):
an entry with at least one token is left unchanged, and an entry with no
tokens whose `zed_language` has a remote match with non-empty extensions
gets the remote extensions copied into its `extensions` field. -/
theorem backfill_spec (zedByLang : List (String × LanguageInfo)) (cfg : Config)
    (langId : String) (e : Entry) (hmem : (langId, e) ∈ cfg) :
    ((langId, backfill_entry zedByLang langId e) ∈
      (backfill_missing_detection_tokens zedByLang cfg).1) ∧
    (get_config_detection_tokens e ≠ [] → backfill_entry zedByLang langId e = e) ∧
    (∀ z zedInfo, get_config_detection_tokens e = [] →
      dictGet e "zed_language" = some (.str z) →
      infoGet zedByLang z = some zedInfo →
      zedInfo.extensions ≠ [] →
      backfill_entry zedByLang langId e =
        dictSet e "extensions" (.list (zedInfo.extensions.map .str))) := by
  refine ⟨mem_backfill _ _ _ _ hmem, ?_, ?_⟩
  · intro hne
    rw [backfill_entry, if_pos hne]
  · intro z zedInfo h0 hz hlook hne
    rw [backfill_entry, if_neg (by simp [h0])]
    have hkey : entryZedKey langId e = some z := by rw [entryZedKey, hz]
    simp only [hkey, Option.some_bind, hlook]
    rw [if_neg hne]

/-- C2 (witness): the amended theorem applied to a one-entry config with
no detection tokens and a matching remote language. -/
theorem backfill_spec_witness :
    (("c", backfill_entry
        [("c", { id := "c", name := "C", zed_language := "c",
                 extensions := ["cc"], source := "native" })] "c"
        [("name", Value.str "C"), ("zed_language", .str "c")]) ∈
      (backfill_missing_detection_tokens
        [("c", { id := "c", name := "C", zed_language := "c",
                 extensions := ["cc"], source := "native" })]
        [("c", [("name", Value.str "C"), ("zed_language", .str "c")])]).1) ∧
    (get_config_detection_tokens [("name", Value.str "C"), ("zed_language", .str "c")] ≠ [] →
      backfill_entry
        [("c", { id := "c", name := "C", zed_language := "c",
                 extensions := ["cc"], source := "native" })] "c"
        [("name", Value.str "C"), ("zed_language", .str "c")] =
      [("name", Value.str "C"), ("zed_language", .str "c")]) ∧
    (∀ z zedInfo,
      get_config_detection_tokens [("name", Value.str "C"), ("zed_language", .str "c")] = [] →
      dictGet [("name", Value.str "C"), ("zed_language", .str "c")] "zed_language" =
        some (.str z) →
      infoGet [("c", { id := "c", name := "C", zed_language := "c",
                       extensions := ["cc"], source := "native" })] z = some zedInfo →
      zedInfo.extensions ≠ [] →
      backfill_entry
        [("c", { id := "c", name := "C", zed_language := "c",
                 extensions := ["cc"], source := "native" })] "c"
        [("name", Value.str "C"), ("zed_language", .str "c")] =
        dictSet [("name", Value.str "C"), ("zed_language", .str "c")] "extensions"
          (.list (zedInfo.extensions.map .str))) :=
  backfill_spec _ _ "c" _ (by decide)

theorem detFold_eq (info : Entry) (fields : List String) (acc : List String) (flag : Bool) :
    fields.foldl (detFoldStep info) (acc, flag) =
      (acc ++ detLinesOver info fields,
       flag || !(detLinesOver info fields).isEmpty) := by
  induction fields generalizing acc flag with
  | nil => simp [detLinesOver]
  | cons f fs ih =>
    rw [List.foldl_cons]
    cases hf : dictGet info f with
    | none =>
      have hstep : detFoldStep info (acc, flag) f = (acc, flag) := by
        rw [detFoldStep, hf]
      rw [hstep, ih]
      simp [detLinesOver, List.filterMap_cons, hf]
    | some v =>
      cases v with
      | list values =>
        have hstep : detFoldStep info (acc, flag) f =
            (acc ++ [f ++ " = [" ++ joinQuoted values ++ "]"], true) := by
          rw [detFoldStep, hf]
        rw [hstep, ih]
        simp [detLinesOver, List.filterMap_cons, hf]
      | str s =>
        have hstep : detFoldStep info (acc, flag) f = (acc, flag) := by
          rw [detFoldStep, hf]
        rw [hstep, ih]
        simp [detLinesOver, List.filterMap_cons, hf]
      | bool b =>
        have hstep : detFoldStep info (acc, flag) f = (acc, flag) := by
          rw [detFoldStep, hf]
        rw [hstep, ih]
        simp [detLinesOver, List.filterMap_cons, hf]
      | int n =>
        have hstep : detFoldStep info (acc, flag) f = (acc, flag) := by
          rw [detFoldStep, hf]
        rw [hstep, ih]
        simp [detLinesOver, List.filterMap_cons, hf]

theorem entry_lines_eq_spec (langId : String) (e : Entry)
    (hn : dictHas e "name" = true) (hz : dictHas e "zed_language" = true) :
    entry_lines langId e = some (entry_lines_spec langId e) := by
  obtain ⟨nv, hnv⟩ : ∃ v, dictGet e "name" = some v := by
    cases h : dictGet e "name" with
    | none => rw [dictHas, h] at hn; simp at hn
    | some v => exact ⟨v, rfl⟩
  obtain ⟨zv, hzv⟩ : ∃ v, dictGet e "zed_language" = some v := by
    cases h : dictGet e "zed_language" with
    | none => rw [dictHas, h] at hz; simp at hz
    | some v => exact ⟨v, rfl⟩
  rw [entry_lines]
  simp only [hnv, hzv]
  rw [detFold_eq]
  unfold entry_lines_spec
  simp only [hnv, hzv, Option.getD_some, Bool.false_or]
  congr 1
  by_cases hemp : (detLinesOver e DETECTION_FIELDS).isEmpty
  · rw [hemp]
    simp only [Bool.not_true, if_neg (by simp : ¬ (false : Bool) = true), if_pos hemp]
    rw [List.isEmpty_iff.mp hemp]
    cases hsrc : dictGet e "source" <;> first | (simp [pyStr]; decide) | simp [pyStr]
  · rw [Bool.eq_false_iff.mpr hemp]
    simp only [Bool.not_false, if_pos rfl, if_neg hemp]
    cases hsrc : dictGet e "source" <;> first | (simp [pyStr]; decide) | simp [pyStr]

theorem save_fold_eq (cfg : Config) (ids : List String) (acc : List String)
    (h : ∀ id ∈ ids, ∃ e, cfgGet cfg id = some e ∧
      entry_lines id e = some (entry_lines_spec id e)) :
    (ids.foldlM (fun acc langId => do
        let info ← cfgGet cfg langId
        let ls ← entry_lines langId info
        pure (acc ++ ls)) acc : Option (List String)) =
      some (acc ++ ids.flatMap
        (fun langId => entry_lines_spec langId ((cfgGet cfg langId).getD []))) := by
  induction ids generalizing acc with
  | nil => simp
  | cons id ids ih =>
    obtain ⟨e, he, hel⟩ := h id (List.mem_cons_self _ _)
    rw [List.foldlM_cons]
    simp only [Option.bind_eq_bind', Option.pure_def] at ih ⊢
    simp only [he, hel, Option.some_bind]
    rw [ih (acc ++ entry_lines_spec id e) (fun i hi => h i (List.mem_cons_of_mem _ hi))]
    simp [he, List.append_assoc]

/-- C5 (counterexample): for an entry carrying both `extensions` and
`suffixes`, `save_config` writes both detection lines, so `extensions`
is not written only when `suffixes`/`filenames` are absent. -/
theorem save_config_counterexample :
    dictHas [("name", Value.str "B"), ("zed_language", .str "b"),
             ("suffixes", .list [.str "s"]), ("extensions", .list [.str "a"])]
        "suffixes" = true ∧
    save_config [("b", [("name", Value.str "B"), ("zed_language", .str "b"),
                        ("suffixes", .list [.str "s"]),
                        ("extensions", .list [.str "a"])])] =
      some ["# Languages configuration for jinja-universal",
            "# source: native (Zed built-in), extension (Zed extension), extra (manual)",
            "",
            "[b]", "name = \"B\"", "zed_language = \"b\"",
            "extensions = [\"a\"]", "suffixes = [\"s\"]",
            "source = \"extra\"", ""] := by decide

/-- C5 (amended): `save_config` serializes the entries sorted by
`lang_id` ascending; each entry block carries `name`, `zed_language`,
every detection field present with a list value (in the order
extensions, suffixes, filenames — so `extensions` is also written when
`suffixes`/`filenames` are present), an `extensions = []` fallback when
no detection field has a list value (malformed non-list detection data
is skipped, never an error), and a `source` line defaulting to
`extra`. -/
theorem save_config_spec (cfg : Config)
    (h : ∀ p ∈ cfg, dictHas p.2 "name" = true ∧ dictHas p.2 "zed_language" = true) :
    save_config cfg =
      some (CONFIG_HEADER ++ (sortStrings (cfg.map Prod.fst)).flatMap
        (fun langId => entry_lines_spec langId ((cfgGet cfg langId).getD []))) ∧
    StrSorted (sortStrings (cfg.map Prod.fst)) ∧
    (sortStrings (cfg.map Prod.fst)).Perm (cfg.map Prod.fst) := by
  refine ⟨?_, sortStrings_sorted _, sortStrings_perm _⟩
  rw [save_config]
  apply save_fold_eq
  intro id hid
  have hid' : id ∈ cfg.map Prod.fst :=
    (sortStrings_perm (cfg.map Prod.fst)).mem_iff.mp hid
  obtain ⟨e, he, hmem⟩ := mem_keys_cfgGet cfg id hid'
  obtain ⟨hn, hz⟩ := h (id, e) hmem
  exact ⟨e, he, entry_lines_eq_spec id e hn hz⟩

/-- C5 (witness): the amended theorem applied to a two-entry config
given in unsorted order. -/
theorem save_config_spec_witness :
    save_config [("b", [("name", Value.str "B"), ("zed_language", .str "b"),
                        ("suffixes", .list [.str "s"])]),
                 ("a", [("name", Value.str "A"), ("zed_language", .str "a")])] =
      some (CONFIG_HEADER ++
        (sortStrings (([("b", [("name", Value.str "B"), ("zed_language", .str "b"),
                               ("suffixes", .list [.str "s"])]),
                       ("a", [("name", Value.str "A"), ("zed_language", .str "a")])] :
            Config).map Prod.fst)).flatMap
          (fun langId => entry_lines_spec langId
            ((cfgGet [("b", [("name", Value.str "B"), ("zed_language", .str "b"),
                             ("suffixes", .list [.str "s"])]),
                      ("a", [("name", Value.str "A"), ("zed_language", .str "a")])]
              langId).getD []))) ∧
    StrSorted (sortStrings (([("b", [("name", Value.str "B"), ("zed_language", .str "b"),
                                     ("suffixes", .list [.str "s"])]),
                             ("a", [("name", Value.str "A"), ("zed_language", .str "a")])] :
        Config).map Prod.fst)) ∧
    (sortStrings (([("b", [("name", Value.str "B"), ("zed_language", .str "b"),
                           ("suffixes", .list [.str "s"])]),
                   ("a", [("name", Value.str "A"), ("zed_language", .str "a")])] :
        Config).map Prod.fst)).Perm
      (([("b", [("name", Value.str "B"), ("zed_language", .str "b"),
                ("suffixes", .list [.str "s"])]),
         ("a", [("name", Value.str "A"), ("zed_language", .str "a")])] :
        Config).map Prod.fst) :=
  save_config_spec _ (by decide)

theorem mk_data (s : String) : String.mk s.data = s := by
  cases s
  rfl

theorem str_eq_of_data {s t : String} (h : s.data = t.data) : s = t := by
  cases s
  cases t
  exact congrArg String.mk h

theorem joinLines_data : ∀ ls : List String,
    (joinLines ls).data = charJoin (ls.map String.data)
  | [] => rfl
  | [l] => rfl
  | l :: l2 :: ls => by
    rw [show joinLines (l :: l2 :: ls) = l ++ "\n" ++ joinLines (l2 :: ls) from rfl,
      List.map_cons, List.map_cons]
    rw [show charJoin (l.data :: l2.data :: (ls.map String.data)) =
      l.data ++ '\n' :: charJoin (l2.data :: ls.map String.data) from rfl]
    rw [String.data_append, String.data_append]
    rw [show ("\n" : String).data = ['\n'] from rfl]
    rw [← List.map_cons String.data l2 ls, joinLines_data (l2 :: ls)]
    simp

theorem splitNl_no_newline : ∀ l : List Char, '\n' ∉ l → splitNlChars l = [l]
  | [], _ => rfl
  | c :: rest, h => by
    rw [splitNlChars, if_neg (by intro hc; exact h (hc ▸ List.mem_cons_self c rest))]
    rw [splitNl_no_newline rest (fun hm => h (List.mem_cons_of_mem c hm))]

theorem splitNl_append_newline : ∀ (a r : List Char), '\n' ∉ a →
    splitNlChars (a ++ '\n' :: r) = a :: splitNlChars r
  | [], r, _ => by simp [splitNlChars]
  | c :: a, r, h => by
    rw [List.cons_append, splitNlChars,
      if_neg (by intro hc; exact h (hc ▸ List.mem_cons_self c a)),
      splitNl_append_newline a r (fun hm => h (List.mem_cons_of_mem c hm))]

theorem splitNl_charJoin : ∀ L : List (List Char), L ≠ [] →
    (∀ l ∈ L, '\n' ∉ l) → splitNlChars (charJoin L) = L
  | [], hne, _ => absurd rfl hne
  | [l], _, h => by
    rw [charJoin, splitNl_no_newline l (h l (List.mem_cons_self _ _))]
  | l :: l2 :: L, _, h => by
    rw [show charJoin (l :: l2 :: L) = l ++ '\n' :: charJoin (l2 :: L) from rfl]
    rw [splitNl_append_newline l _ (h l (List.mem_cons_self _ _))]
    rw [splitNl_charJoin (l2 :: L) (by simp)
      (fun x hx => h x (List.mem_cons_of_mem _ hx))]

theorem splitLines_joinLines (ls : List String) (hne : ls ≠ [])
    (h : ∀ l ∈ ls, '\n' ∉ l.data) : splitLines (joinLines ls) = ls := by
  rw [splitLines, joinLines_data,
    splitNl_charJoin (ls.map String.data) (by simpa using hne)
      (by intro x hx
          rcases List.mem_map.mp hx with ⟨l, hl, rfl⟩
          exact h l hl)]
  rw [List.map_map]
  have hmk : (String.mk ∘ String.data) = id := funext fun s => mk_data s
  rw [hmk, List.map_id]

theorem scanQuoted_emit : ∀ (s r : List Char), '"' ∉ s →
    scanQuoted (s ++ '"' :: r) = some (s, r)
  | [], r, _ => by simp [scanQuoted]
  | c :: s, r, h => by
    rw [List.cons_append, scanQuoted,
      if_neg (by intro hc; exact h (hc ▸ List.mem_cons_self c s)),
      scanQuoted_emit s r (fun hm => h (List.mem_cons_of_mem c hm))]
    rfl

theorem joinQuoted_data : ∀ vs : List Value,
    (joinQuoted vs).data ++ [']'] = listBodyChars (vs.map pyStr)
  | [] => rfl
  | [v] => by
    rw [joinQuoted, List.map_cons, List.map_nil, listBodyChars,
      String.data_append, String.data_append]
    simp
  | v :: v2 :: vs => by
    rw [show joinQuoted (v :: v2 :: vs) =
      "\"" ++ pyStr v ++ "\"" ++ ", " ++ joinQuoted (v2 :: vs) from rfl]
    rw [List.map_cons,
      show listBodyChars (pyStr v :: (v2 :: vs).map pyStr) =
        '"' :: (pyStr v).data ++ ['"', ',', ' '] ++
          listBodyChars ((v2 :: vs).map pyStr) from
        (by rw [List.map_cons]; rfl),
      ← joinQuoted_data (v2 :: vs)]
    rw [String.data_append, String.data_append, String.data_append,
      String.data_append]
    simp [show ("\"" : String).data = ['"'] from rfl,
      show (", " : String).data = [',', ' '] from rfl]

theorem parseListBody_emit : ∀ (ss : List String) (fuel : Nat),
    (∀ s ∈ ss, '"' ∉ s.data) → (listBodyChars ss).length ≤ fuel + 1 →
    parseListBody fuel (listBodyChars ss) = some ss
  | [], fuel, _, _ => by
    cases fuel <;> rfl
  | [s], fuel, h, hfuel => by
    rw [listBodyChars] at hfuel ⊢
    have hlen : 3 + s.data.length ≤ fuel + 1 := by
      simp only [List.length_cons, List.length_append] at hfuel
      omega
    obtain ⟨f, rfl⟩ : ∃ f, fuel = f + 1 := ⟨fuel - 1, by omega⟩
    rw [show ('"' :: s.data ++ ['"', ']'] : List Char) =
      '"' :: (s.data ++ '"' :: [']']) from by simp]
    rw [parseListBody.eq_def]
    simp only []
    rw [scanQuoted_emit s.data [']'] (h s (List.mem_cons_self _ _))]
    simp [mk_data]
  | s :: s2 :: ss, fuel, h, hfuel => by
    rw [show listBodyChars (s :: s2 :: ss) =
      '"' :: s.data ++ ['"', ',', ' '] ++ listBodyChars (s2 :: ss) from rfl] at hfuel ⊢
    have hlen : 4 + s.data.length + (listBodyChars (s2 :: ss)).length ≤ fuel + 1 := by
      simp only [List.length_append, List.length_cons] at hfuel
      omega
    obtain ⟨f, rfl⟩ : ∃ f, fuel = f + 1 := ⟨fuel - 1, by omega⟩
    rw [show ('"' :: s.data ++ ['"', ',', ' '] ++ listBodyChars (s2 :: ss) : List Char) =
      '"' :: (s.data ++ '"' :: (',' :: ' ' :: listBodyChars (s2 :: ss))) from by simp]
    rw [parseListBody.eq_def]
    simp only []
    rw [scanQuoted_emit s.data _ (h s (List.mem_cons_self _ _))]
    have hrec := parseListBody_emit (s2 :: ss) f
      (fun x hx => h x (List.mem_cons_of_mem _ hx))
      (by
        have hlen2 : (listBodyChars (s2 :: ss)).length ≤ f + 1 := by omega
        exact hlen2)
    simp [hrec, mk_data]

theorem takeWhile_append_space : ∀ (k r : List Char), ' ' ∉ k →
    (k ++ ' ' :: r).takeWhile notSpace = k
  | [], r, _ => by simp [List.takeWhile_cons, notSpace]
  | c :: k, r, h => by
    have hc : notSpace c = true := by
      simp [notSpace]
      exact fun hc => h (hc ▸ List.mem_cons_self c k)
    rw [List.cons_append]
    simp [List.takeWhile_cons, hc,
      takeWhile_append_space k r (fun hm => h (List.mem_cons_of_mem c hm))]

theorem dropWhile_append_space : ∀ (k r : List Char), ' ' ∉ k →
    (k ++ ' ' :: r).dropWhile notSpace = ' ' :: r
  | [], r, _ => by simp [List.dropWhile_cons, notSpace]
  | c :: k, r, h => by
    have hc : notSpace c = true := by
      simp [notSpace]
      exact fun hc => h (hc ▸ List.mem_cons_self c k)
    rw [List.cons_append]
    simp [List.dropWhile_cons, hc,
      dropWhile_append_space k r (fun hm => h (List.mem_cons_of_mem c hm))]

theorem parseKeyValue_str (pre key X : String) (hpre : pre = key ++ " = \"")
    (hk : ' ' ∉ key.data) (hX : '"' ∉ X.data) :
    parseKeyValue (pre ++ X ++ "\"") = some (key, .str X) := by
  subst hpre
  simp only [parseKeyValue, String.data_append]
  simp only [List.append_assoc, List.cons_append, List.nil_append]
  rw [takeWhile_append_space _ _ hk, dropWhile_append_space _ _ hk]
  simp only []
  rw [show parseValueChars ('"' :: (X.data ++ ['"'])) =
    (match scanQuoted (X.data ++ ['"']) with
     | some (s, []) => some (Value.str (String.mk s))
     | _ => none) from rfl]
  rw [show (X.data ++ ['"'] : List Char) = X.data ++ '"' :: [] from rfl,
    scanQuoted_emit X.data [] hX]
  simp [mk_data]

theorem parseKeyValue_list (pre key : String) (vs : List Value)
    (hpre : pre = key ++ " = [") (hk : ' ' ∉ key.data)
    (hclean : ∀ v ∈ vs, '"' ∉ (pyStr v).data) :
    parseKeyValue (pre ++ joinQuoted vs ++ "]") =
      some (key, .list (vs.map (fun v => .str (pyStr v)))) := by
  subst hpre
  simp only [parseKeyValue, String.data_append]
  simp only [List.append_assoc, List.cons_append, List.nil_append]
  rw [takeWhile_append_space _ _ hk, dropWhile_append_space _ _ hk]
  simp only []
  rw [show parseValueChars ('[' :: ((joinQuoted vs).data ++ [']'])) =
    (parseListBody ((joinQuoted vs).data ++ [']']).length
      ((joinQuoted vs).data ++ [']'])).map
        (fun items => Value.list (items.map .str)) from rfl]
  rw [joinQuoted_data vs]
  rw [parseListBody_emit (vs.map pyStr) (listBodyChars (vs.map pyStr)).length
    (by
      intro s hs
      rcases List.mem_map.mp hs with ⟨v, hv, rfl⟩
      exact hclean v hv)
    (by omega)]
  simp [mk_data, List.map_map]

theorem ne_empty_of_data_cons {s : String} {c : Char} {t : List Char}
    (hdata : s.data = c :: t) : s ≠ "" := by
  intro h
  rw [h] at hdata
  exact absurd hdata (by simp [show ("" : String).data = [] from rfl])

theorem startsWith_hash_false {s : String} {c : Char} {t : List Char}
    (hdata : s.data = c :: t) (hne : c ≠ '#') : strStartsWith s "#" = false := by
  rw [strStartsWith, hdata, show ("#" : String).data = ['#'] from rfl]
  simp [List.isPrefixOf]
  exact fun h => hne h.symm

theorem startsWith_bracket_false {s : String} {c : Char} {t : List Char}
    (hdata : s.data = c :: t) (hne : c ≠ '[') : strStartsWith s "[" = false := by
  rw [strStartsWith, hdata, show ("[" : String).data = ['['] from rfl]
  simp [List.isPrefixOf]
  exact fun h => hne h.symm

theorem startsWith_bracket_true {s : String} {t : List Char}
    (hdata : s.data = '[' :: t) : strStartsWith s "[" = true := by
  rw [strStartsWith, hdata, show ("[" : String).data = ['['] from rfl]
  simp [List.isPrefixOf]

theorem section_line_data (sectionId : String) :
    ("[" ++ sectionId ++ "]").data = '[' :: (sectionId.data ++ [']']) := by
  rw [String.data_append, String.data_append,
    show ("[" : String).data = ['['] from rfl,
    show ("]" : String).data = [']'] from rfl]
  simp

theorem splitSection_emit (sectionId : String) :
    splitSection ("[" ++ sectionId ++ "]") = some sectionId := by
  rw [splitSection]
  rw [section_line_data]
  simp only []
  rw [List.getLast?_concat, if_pos rfl, List.dropLast_concat, mk_data]

theorem parse_cons (line : String) (rest : List String) (done done' : Config)
    (cur cur' : Option (String × Entry))
    (h : parseLineStep (done, cur) line = some (done', cur')) :
    parseLinesAux (line :: rest) done cur = parseLinesAux rest done' cur' := by
  rw [parseLinesAux, parseLinesAux, List.foldlM_cons, h]
  simp only [Option.bind_eq_bind', Option.some_bind]

theorem parseLineStep_empty (st : Config × Option (String × Entry)) :
    parseLineStep st "" = some st := by
  rw [parseLineStep, if_pos rfl]

theorem parseLineStep_comment (st : Config × Option (String × Entry)) (line : String)
    (hne : line ≠ "") (hhash : strStartsWith line "#" = true) :
    parseLineStep st line = some st := by
  rw [parseLineStep, if_neg hne, if_pos (by simp [hhash])]

theorem parseLineStep_section (st : Config × Option (String × Entry)) (sectionId : String) :
    parseLineStep st ("[" ++ sectionId ++ "]") =
      some (st.1 ++ st.2.toList, some (sectionId, [])) := by
  rw [parseLineStep,
    if_neg (ne_empty_of_data_cons (section_line_data sectionId)),
    if_neg (by simp [startsWith_hash_false (section_line_data sectionId) (by decide)]),
    if_pos (by simp [startsWith_bracket_true (section_line_data sectionId)]),
    splitSection_emit]

theorem parseLineStep_kv (done : Config) (sectionId : String) (e0 : Entry)
    (line : String) (k : String) (v : Value)
    (hne : line ≠ "") (hhash : strStartsWith line "#" = false)
    (hbr : strStartsWith line "[" = false)
    (hkv : parseKeyValue line = some (k, v)) :
    parseLineStep (done, some (sectionId, e0)) line =
      some (done, some (sectionId, dictSet e0 k v)) := by
  rw [parseLineStep, if_neg hne, if_neg (by simp [hhash]), if_neg (by simp [hbr])]
  simp only [hkv]

theorem parse_header (rest : List String) (done : Config)
    (cur : Option (String × Entry)) :
    parseLinesAux (CONFIG_HEADER ++ rest) done cur = parseLinesAux rest done cur := by
  rw [show CONFIG_HEADER ++ rest =
    "# Languages configuration for jinja-universal" ::
    "# source: native (Zed built-in), extension (Zed extension), extra (manual)" ::
    "" :: rest from rfl]
  rw [parse_cons _ _ done done cur cur
      (parseLineStep_comment _ _ (by decide) (by decide)),
    parse_cons _ _ done done cur cur
      (parseLineStep_comment _ _ (by decide) (by decide)),
    parse_cons _ _ done done cur cur (parseLineStep_empty _)]

theorem cleanCharsB_spec (l : List Char) (h : cleanCharsB l = true) :
    '\n' ∉ l ∧ '"' ∉ l := by
  rw [cleanCharsB, Bool.and_eq_true] at h
  rcases h with ⟨h1, h2⟩
  constructor
  · intro hm
    rw [Bool.not_eq_eq_eq_not, Bool.not_true] at h1
    simp [hm] at h1
  · intro hm
    rw [Bool.not_eq_eq_eq_not, Bool.not_true] at h2
    simp [hm] at h2

theorem entrySer_parts (e : Entry) (h : entrySerializableB e = true) :
    (∃ v, dictGet e "name" = some v ∧ cleanCharsB (pyStr v).data = true) ∧
    (∃ v, dictGet e "zed_language" = some v ∧ cleanCharsB (pyStr v).data = true) ∧
    (∀ f ∈ DETECTION_FIELDS, ∀ vs, dictGet e f = some (.list vs) →
      ∀ v ∈ vs, cleanCharsB (pyStr v).data = true) ∧
    cleanCharsB (pyStr ((dictGet e "source").getD (.str "extra"))).data = true := by
  rw [entrySerializableB, Bool.and_eq_true, Bool.and_eq_true, Bool.and_eq_true] at h
  rcases h with ⟨⟨⟨hn, hz⟩, hdet⟩, hsrc⟩
  refine ⟨?_, ?_, ?_, ?_⟩
  · cases hget : dictGet e "name" with
    | none => rw [hget] at hn; exact absurd hn (by simp)
    | some v => rw [hget] at hn; exact ⟨v, rfl, hn⟩
  · cases hget : dictGet e "zed_language" with
    | none => rw [hget] at hz; exact absurd hz (by simp)
    | some v => rw [hget] at hz; exact ⟨v, rfl, hz⟩
  · intro f hf vs hget v hv
    have := (List.all_eq_true.mp hdet) f hf
    rw [hget] at this
    exact (List.all_eq_true.mp this) v hv
  · cases hget : dictGet e "source" with
    | none =>
      rw [hget] at hsrc
      simp only [Option.getD_none]
      decide
    | some v =>
      rw [hget] at hsrc
      simpa using hsrc

theorem dictSet_append (e : Entry) (k : String) (v : Value)
    (h : k ∉ e.map Prod.fst) : dictSet e k v = e ++ [(k, v)] := by
  induction e with
  | nil => rfl
  | cons p rest ih =>
    cases p with
    | mk k' v' =>
      rw [List.map_cons] at h
      rw [dictSet,
        if_neg (fun hk => h (by rw [← hk]; exact List.mem_cons_self _ _)),
        ih (fun hm => h (List.mem_cons_of_mem _ hm)), List.cons_append]

theorem foldl_dictSet_append : ∀ (kvs : List (String × Value)) (e0 : Entry),
    (∀ k ∈ kvs.map Prod.fst, k ∉ e0.map Prod.fst) → (kvs.map Prod.fst).Nodup →
    List.foldl (fun acc p => dictSet acc p.1 p.2) e0 kvs = e0 ++ kvs
  | [], e0, _, _ => by simp
  | (k, v) :: kvs, e0, hdisj, hnd => by
    rw [List.foldl_cons]
    simp only []
    rw [dictSet_append e0 k v (hdisj k (by simp))]
    rw [List.map_cons, List.nodup_cons] at hnd
    rw [foldl_dictSet_append kvs (e0 ++ [(k, v)])
      (by
        intro k' hk'
        rw [List.map_append]
        intro hmem
        rcases List.mem_append.mp hmem with hm | hm
        · exact hdisj k' (List.mem_cons_of_mem _ hk') hm
        · have hk : k' = k := by simpa using hm
          exact hnd.1 (hk ▸ hk')
      )
      hnd.2]
    rw [List.append_assoc, List.singleton_append]

theorem detLinesOver_eq_map (e : Entry) :
    detLinesOver e DETECTION_FIELDS =
      (detPairsOfList e).map (fun p => p.1 ++ " = [" ++ joinQuoted p.2 ++ "]") := by
  rw [detLinesOver, detPairsOfList, List.map_filterMap]
  apply List.filterMap_congr
  intro f _
  cases hget : dictGet e f with
  | none => rfl
  | some v => cases v <;> rfl

theorem detPairs_mem (e : Entry) (p : String × List Value)
    (hp : p ∈ detPairsOfList e) :
    p.1 ∈ DETECTION_FIELDS ∧ dictGet e p.1 = some (.list p.2) := by
  rw [detPairsOfList] at hp
  rcases List.mem_filterMap.mp hp with ⟨f, hf, hgf⟩
  cases hget : dictGet e f with
  | none => rw [hget] at hgf; exact absurd hgf (by simp)
  | some v =>
    rw [hget] at hgf
    cases v with
    | list vs =>
      simp only [Option.some.injEq] at hgf
      rw [← hgf]
      exact ⟨hf, hget⟩
    | str s => exact absurd hgf (by simp)
    | bool b => exact absurd hgf (by simp)
    | int n => exact absurd hgf (by simp)

theorem detPairs_keys_sublist_aux (e : Entry) : ∀ fields : List String,
    ((fields.filterMap (fun field => match dictGet e field with
      | some (.list values) => some (field, values)
      | _ => none)).map Prod.fst).Sublist fields
  | [] => List.Sublist.refl _
  | f :: fs => by
    rw [List.filterMap_cons]
    cases hget : dictGet e f with
    | none =>
      simp only []
      exact (detPairs_keys_sublist_aux e fs).cons f
    | some v =>
      cases v with
      | list vs =>
        simp only [List.map_cons]
        exact (detPairs_keys_sublist_aux e fs).cons₂ f
      | str s => exact (detPairs_keys_sublist_aux e fs).cons f
      | bool b => exact (detPairs_keys_sublist_aux e fs).cons f
      | int n => exact (detPairs_keys_sublist_aux e fs).cons f

theorem detPairs_keys_sublist (e : Entry) :
    ((detPairsOfList e).map Prod.fst).Sublist DETECTION_FIELDS := by
  rw [detPairsOfList]
  exact detPairs_keys_sublist_aux e DETECTION_FIELDS

theorem line_shape (s pre : String) (rest : List Char) (c : Char)
    (hdata : s.data = pre.data ++ rest) (hhead : pre.data.head? = some c)
    (hc1 : c ≠ '#') (hc2 : c ≠ '[') :
    s ≠ "" ∧ strStartsWith s "#" = false ∧ strStartsWith s "[" = false := by
  cases hd : pre.data with
  | nil => rw [hd] at hhead; exact absurd hhead (by simp)
  | cons c' t =>
    rw [hd] at hhead
    simp only [List.head?_cons, Option.some.injEq] at hhead
    subst hhead
    rw [hd, List.cons_append] at hdata
    exact ⟨ne_empty_of_data_cons hdata, startsWith_hash_false hdata hc1,
      startsWith_bracket_false hdata hc2⟩

theorem det_line_facts (f mid : String) (hf : f ∈ DETECTION_FIELDS) :
    ' ' ∉ f.data ∧ (f ++ " = [" ++ mid ++ "]") ≠ "" ∧
    strStartsWith (f ++ " = [" ++ mid ++ "]") "#" = false ∧
    strStartsWith (f ++ " = [" ++ mid ++ "]") "[" = false := by
  have hdata : (f ++ " = [" ++ mid ++ "]").data =
      f.data ++ ((" = [" : String).data ++ (mid.data ++ ("]" : String).data)) := by
    simp [String.data_append]
  simp only [DETECTION_FIELDS, List.mem_cons, List.not_mem_nil, or_false] at hf
  rcases hf with rfl | rfl | rfl
  · obtain ⟨h1, h2, h3⟩ := line_shape _ "extensions" _ 'e' hdata rfl
      (by decide) (by decide)
    exact ⟨by decide, h1, h2, h3⟩
  · obtain ⟨h1, h2, h3⟩ := line_shape _ "suffixes" _ 's' hdata rfl
      (by decide) (by decide)
    exact ⟨by decide, h1, h2, h3⟩
  · obtain ⟨h1, h2, h3⟩ := line_shape _ "filenames" _ 'f' hdata rfl
      (by decide) (by decide)
    exact ⟨by decide, h1, h2, h3⟩

theorem parse_det_lines : ∀ (pairs : List (String × List Value)) (rest : List String)
    (done : Config) (sectionId : String) (e0 : Entry),
    (∀ p ∈ pairs, p.1 ∈ DETECTION_FIELDS) →
    (∀ p ∈ pairs, ∀ v ∈ p.2, '"' ∉ (pyStr v).data) →
    parseLinesAux ((pairs.map (fun p => p.1 ++ " = [" ++ joinQuoted p.2 ++ "]")) ++ rest)
        done (some (sectionId, e0)) =
      parseLinesAux rest done (some (sectionId,
        List.foldl (fun acc p =>
          dictSet acc p.1 (Value.list (p.2.map (fun v => Value.str (pyStr v)))))
          e0 pairs))
  | [], rest, done, sectionId, e0, _, _ => by simp
  | (f, vs) :: pairs, rest, done, sectionId, e0, hf, hcl => by
    rw [List.map_cons, List.cons_append]
    obtain ⟨hsp, hne, hh, hb⟩ :=
      det_line_facts f (joinQuoted vs) (hf _ (List.mem_cons_self _ _))
    rw [parse_cons _ _ done done _ _
      (parseLineStep_kv done sectionId e0 _ f
        (Value.list (vs.map (fun v => Value.str (pyStr v)))) hne hh hb
        (parseKeyValue_list (f ++ " = [") f vs rfl hsp
          (fun v hv => hcl _ (List.mem_cons_self _ _) v hv)))]
    rw [parse_det_lines pairs rest done sectionId _
      (fun p hp => hf p (List.mem_cons_of_mem _ hp))
      (fun p hp => hcl p (List.mem_cons_of_mem _ hp))]
    rw [List.foldl_cons]

theorem foldl_dictSet_det : ∀ (pairs : List (String × List Value)) (e0 : Entry),
    (∀ k ∈ pairs.map Prod.fst, k ∉ e0.map Prod.fst) → (pairs.map Prod.fst).Nodup →
    List.foldl (fun acc p =>
        dictSet acc p.1 (Value.list (p.2.map (fun v => Value.str (pyStr v)))))
        e0 pairs =
      e0 ++ pairs.map (fun p => (p.1, Value.list (p.2.map (fun v => Value.str (pyStr v)))))
  | [], e0, _, _ => by simp
  | (f, vs) :: pairs, e0, hdisj, hnd => by
    rw [List.foldl_cons]
    simp only []
    rw [dictSet_append e0 f _ (hdisj f (by simp))]
    rw [List.map_cons, List.nodup_cons] at hnd
    rw [foldl_dictSet_det pairs (e0 ++ [(f, Value.list (vs.map (fun v => Value.str (pyStr v))))])
      (by
        intro k hk
        rw [List.map_append]
        intro hmem
        rcases List.mem_append.mp hmem with hm | hm
        · exact hdisj k (List.mem_cons_of_mem _ hk) hm
        · have hkf : k = f := by simpa using hm
          exact hnd.1 (hkf ▸ hk))
      hnd.2]
    simp

theorem parse_entry_block (sectionId : String) (e : Entry) (rest : List String)
    (done : Config) (cur : Option (String × Entry))
    (hser : entrySerializableB e = true) :
    parseLinesAux (entry_lines_spec sectionId e ++ rest) done cur =
      parseLinesAux rest (done ++ cur.toList) (some (sectionId, reloadEntry e)) := by
  obtain ⟨⟨nv, hnv, hncl⟩, ⟨zv, hzv, hzcl⟩, hdetcl, hscl⟩ := entrySer_parts e hser
  obtain ⟨hn1, hn2⟩ := cleanCharsB_spec _ hncl
  obtain ⟨hz1, hz2⟩ := cleanCharsB_spec _ hzcl
  obtain ⟨hs1, hs2⟩ := cleanCharsB_spec _ hscl
  rw [entry_lines_spec]
  simp only [hnv, hzv, Option.getD_some]
  simp only [List.cons_append, List.nil_append, List.append_assoc]
  rw [parse_cons _ _ done (done ++ cur.toList) cur (some (sectionId, []))
    (parseLineStep_section (done, cur) sectionId)]
  have hnamedata : ("name = \"" ++ pyStr nv ++ "\"").data =
      ("name = \"" : String).data ++ ((pyStr nv).data ++ ("\"" : String).data) := by
    simp [String.data_append]
  obtain ⟨ha1, ha2, ha3⟩ := line_shape _ "name = \"" _ 'n' hnamedata rfl (by decide) (by decide)
  rw [parse_cons _ _ _ _ _ _
    (parseLineStep_kv _ sectionId [] _ "name" (Value.str (pyStr nv)) ha1 ha2 ha3
      (parseKeyValue_str "name = \"" "name" (pyStr nv) (by decide) (by decide) hn2))]
  have hzeddata : ("zed_language = \"" ++ pyStr zv ++ "\"").data =
      ("zed_language = \"" : String).data ++ ((pyStr zv).data ++ ("\"" : String).data) := by
    simp [String.data_append]
  obtain ⟨hb1, hb2, hb3⟩ := line_shape _ "zed_language = \"" _ 'z' hzeddata rfl (by decide) (by decide)
  rw [parse_cons _ _ _ _ _ _
    (parseLineStep_kv _ sectionId _ _ "zed_language" (Value.str (pyStr zv)) hb1 hb2 hb3
      (parseKeyValue_str "zed_language = \"" "zed_language" (pyStr zv) (by decide) (by decide) hz2))]
  rw [show dictSet (dictSet [] "name" (Value.str (pyStr nv))) "zed_language" (Value.str (pyStr zv)) =
    [("name", Value.str (pyStr nv)), ("zed_language", Value.str (pyStr zv))] from rfl]
  by_cases hpairs : detPairsOfList e = []
  · rw [detLinesOver_eq_map, hpairs]
    simp only [List.map_nil]
    rw [if_pos (show ([] : List String).isEmpty = true from rfl)]
    simp only [List.cons_append, List.nil_append]
    rw [parse_cons _ _ _ _ _ _
      (parseLineStep_kv _ sectionId _ _ "extensions" (Value.list [])
        (by decide) (by decide) (by decide) (by decide))]
    have hsrcdata : ("source = \"" ++ pyStr ((dictGet e "source").getD (Value.str "extra")) ++ "\"").data =
        ("source = \"" : String).data ++
          ((pyStr ((dictGet e "source").getD (Value.str "extra"))).data ++ ("\"" : String).data) := by
      simp [String.data_append]
    obtain ⟨hc1, hc2, hc3⟩ := line_shape _ "source = \"" _ 's' hsrcdata rfl (by decide) (by decide)
    rw [parse_cons _ _ _ _ _ _
      (parseLineStep_kv _ sectionId _ _ "source"
        (Value.str (pyStr ((dictGet e "source").getD (Value.str "extra")))) hc1 hc2 hc3
        (parseKeyValue_str "source = \"" "source" _ (by decide) (by decide) hs2))]
    rw [parse_cons _ _ _ _ _ _ (parseLineStep_empty _)]
    congr 2
    rw [reloadEntry]
    simp only [hnv, hzv, Option.getD_some, hpairs, List.map_nil]
    rfl
  · rw [detLinesOver_eq_map]
    rw [if_neg (by simp [hpairs])]
    rw [parse_det_lines (detPairsOfList e) _ _ sectionId _
      (fun p hp => (detPairs_mem e p hp).1)
      (fun p hp v hv => (cleanCharsB_spec _
        (hdetcl p.1 (detPairs_mem e p hp).1 p.2 (detPairs_mem e p hp).2 v hv)).2)]
    have hkeysdet : ∀ k ∈ (detPairsOfList e).map Prod.fst, k ∈ DETECTION_FIELDS :=
      fun k hk => (detPairs_keys_sublist e).subset hk
    rw [foldl_dictSet_det (detPairsOfList e)
      [("name", Value.str (pyStr nv)), ("zed_language", Value.str (pyStr zv))]
      (by
        intro k hk
        have hkdet := hkeysdet k hk
        have : ∀ k2 ∈ DETECTION_FIELDS,
            k2 ∉ (["name", "zed_language"] : List String) := by decide
        exact this k hkdet)
      ((detPairs_keys_sublist e).nodup (by decide))]
    have hsrcdata : ("source = \"" ++ pyStr ((dictGet e "source").getD (Value.str "extra")) ++ "\"").data =
        ("source = \"" : String).data ++
          ((pyStr ((dictGet e "source").getD (Value.str "extra"))).data ++ ("\"" : String).data) := by
      simp [String.data_append]
    obtain ⟨hc1, hc2, hc3⟩ := line_shape _ "source = \"" _ 's' hsrcdata rfl (by decide) (by decide)
    rw [parse_cons _ _ _ _ _ _
      (parseLineStep_kv _ sectionId _ _ "source"
        (Value.str (pyStr ((dictGet e "source").getD (Value.str "extra")))) hc1 hc2 hc3
        (parseKeyValue_str "source = \"" "source" _ (by decide) (by decide) hs2))]
    rw [parse_cons _ _ _ _ _ _ (parseLineStep_empty _)]
    rw [dictSet_append _ "source" _
      (by
        rw [List.map_append]
        intro hmem
        rcases List.mem_append.mp hmem with hm | hm
        · simp at hm
        · rw [List.map_map] at hm
          have : "source" ∈ (detPairsOfList e).map Prod.fst := by
            rcases List.mem_map.mp hm with ⟨p, hp, hpk⟩
            exact List.mem_map.mpr ⟨p, hp, hpk⟩
          have hsm := hkeysdet _ this
          revert hsm; decide)]
    congr 2
    rw [reloadEntry]
    simp only [hnv, hzv, Option.getD_some]
    rw [if_neg (by simp [hpairs])]

theorem parseLinesAux_nil (done : Config) (cur : Option (String × Entry)) :
    parseLinesAux [] done cur = some (done ++ cur.toList) := rfl

theorem parse_blocks : ∀ (pairsList : List (String × Entry)) (done : Config)
    (cur : Option (String × Entry)),
    (∀ p ∈ pairsList, entrySerializableB p.2 = true) →
    parseLinesAux (pairsList.flatMap (fun p => entry_lines_spec p.1 p.2)) done cur =
      some ((done ++ cur.toList) ++ pairsList.map (fun p => (p.1, reloadEntry p.2)))
  | [], done, cur, _ => by
    rw [List.flatMap_nil, parseLinesAux_nil]
    simp
  | (sectionId, e) :: ps, done, cur, hser => by
    rw [List.flatMap_cons]
    simp only []
    rw [parse_entry_block sectionId e _ done cur (hser _ (List.mem_cons_self _ _))]
    rw [parse_blocks ps (done ++ cur.toList) (some (sectionId, reloadEntry e))
      (fun p hp => hser p (List.mem_cons_of_mem _ hp))]
    simp

theorem flatMap_pairs (ids : List String) (f : String → Entry)
    (g : String → Entry → List String) :
    (ids.map (fun langId => (langId, f langId))).flatMap (fun p => g p.1 p.2) =
      ids.flatMap (fun langId => g langId (f langId)) := by
  induction ids with
  | nil => rfl
  | cons i ids ih =>
    rw [List.map_cons, List.flatMap_cons, List.flatMap_cons, ih]

theorem cfgGet_map_pairs (ids : List String) (f : String → Entry) (langId : String)
    (h : langId ∈ ids) :
    cfgGet (ids.map (fun i => (i, f i))) langId = some (f langId) := by
  induction ids with
  | nil => simp at h
  | cons i ids ih =>
    by_cases hi : i = langId
    · subst hi
      simp [cfgGet, List.find?]
    · rcases List.mem_cons.mp h with h1 | h1
      · exact absurd h1.symm hi
      · rw [List.map_cons, cfgGet, List.find?]
        simp only [decide_eq_false hi]
        exact ih h1

theorem dictGet_append (l1 l2 : Entry) (k : String) :
    dictGet (l1 ++ l2) k =
      match dictGet l1 k with
      | some v => some v
      | none => dictGet l2 k := by
  induction l1 with
  | nil => simp [dictGet, List.find?]
  | cons p rest ih =>
    cases p with
    | mk k' v' =>
      by_cases hk : k' = k
      · subst hk
        simp [dictGet, List.find?]
      · rw [List.cons_append, dictGet, List.find?]
        simp only [decide_eq_false hk]
        rw [dictGet, List.find?]
        simp only [decide_eq_false hk]
        exact ih

theorem joinQuoted_map_str : ∀ vs : List Value,
    joinQuoted (vs.map (fun v => Value.str (pyStr v))) = joinQuoted vs
  | [] => rfl
  | [v] => rfl
  | v :: v2 :: vs => by
    rw [List.map_cons, List.map_cons,
      show joinQuoted (Value.str (pyStr v) :: Value.str (pyStr v2) ::
        vs.map (fun v => Value.str (pyStr v))) =
        "\"" ++ pyStr (Value.str (pyStr v)) ++ "\"" ++ ", " ++
          joinQuoted (Value.str (pyStr v2) :: vs.map (fun v => Value.str (pyStr v)))
        from rfl,
      show joinQuoted (v :: v2 :: vs) =
        "\"" ++ pyStr v ++ "\"" ++ ", " ++ joinQuoted (v2 :: vs) from rfl,
      ← List.map_cons (fun v => Value.str (pyStr v)) v2 vs,
      joinQuoted_map_str (v2 :: vs)]
    rfl

theorem dictGet_conv_aux (e : Entry) : ∀ (fields : List String) (f : String),
    fields.Nodup →
    dictGet ((fields.filterMap (fun field =>
        match dictGet e field with
        | some (.list values) => some (field, values)
        | _ => none)).map
      (fun p => (p.1, Value.list (p.2.map (fun v => Value.str (pyStr v)))))) f =
      (if f ∈ fields then
        (match dictGet e f with
         | some (.list values) =>
            some (Value.list (values.map (fun v => Value.str (pyStr v))))
         | _ => none)
      else none)
  | [], f, _ => by simp [dictGet, List.find?]
  | x :: fs, f, hnd => by
    rw [List.nodup_cons] at hnd
    rw [List.filterMap_cons]
    cases hget : dictGet e x with
    | some v =>
      cases v with
      | list vs =>
        simp only [List.map_cons]
        by_cases hxf : x = f
        · subst hxf
          rw [if_pos (List.mem_cons_self _ _), hget]
          simp [dictGet, List.find?]
        · rw [dictGet, List.find?]
          simp only [decide_eq_false hxf]
          rw [← dictGet]
          rw [dictGet_conv_aux e fs f hnd.2]
          by_cases hmem : f ∈ fs
          · rw [if_pos hmem, if_pos (List.mem_cons_of_mem _ hmem)]
          · rw [if_neg hmem,
              if_neg (fun hc => (List.mem_cons.mp hc).elim (fun h1 => hxf h1.symm) hmem)]
      | str s =>
        rw [dictGet_conv_aux e fs f hnd.2]
        by_cases hxf : x = f
        · subst hxf
          rw [if_neg hnd.1, if_pos (List.mem_cons_self _ _), hget]
        · by_cases hmem : f ∈ fs
          · rw [if_pos hmem, if_pos (List.mem_cons_of_mem _ hmem)]
          · rw [if_neg hmem,
              if_neg (fun hc => (List.mem_cons.mp hc).elim (fun h1 => hxf h1.symm) hmem)]
      | bool b =>
        rw [dictGet_conv_aux e fs f hnd.2]
        by_cases hxf : x = f
        · subst hxf
          rw [if_neg hnd.1, if_pos (List.mem_cons_self _ _), hget]
        · by_cases hmem : f ∈ fs
          · rw [if_pos hmem, if_pos (List.mem_cons_of_mem _ hmem)]
          · rw [if_neg hmem,
              if_neg (fun hc => (List.mem_cons.mp hc).elim (fun h1 => hxf h1.symm) hmem)]
      | int n =>
        rw [dictGet_conv_aux e fs f hnd.2]
        by_cases hxf : x = f
        · subst hxf
          rw [if_neg hnd.1, if_pos (List.mem_cons_self _ _), hget]
        · by_cases hmem : f ∈ fs
          · rw [if_pos hmem, if_pos (List.mem_cons_of_mem _ hmem)]
          · rw [if_neg hmem,
              if_neg (fun hc => (List.mem_cons.mp hc).elim (fun h1 => hxf h1.symm) hmem)]
    | none =>
      rw [dictGet_conv_aux e fs f hnd.2]
      by_cases hxf : x = f
      · subst hxf
        rw [if_neg hnd.1, if_pos (List.mem_cons_self _ _), hget]
      · by_cases hmem : f ∈ fs
        · rw [if_pos hmem, if_pos (List.mem_cons_of_mem _ hmem)]
        · rw [if_neg hmem,
            if_neg (fun hc => (List.mem_cons.mp hc).elim (fun h1 => hxf h1.symm) hmem)]

theorem isEmpty_map {α β : Type} (f : α → β) (l : List α) :
    (l.map f).isEmpty = l.isEmpty := by
  cases l <;> rfl

theorem reload_get_name (e : Entry) :
    dictGet (reloadEntry e) "name" =
      some (Value.str (pyStr ((dictGet e "name").getD (.str "")))) := rfl

theorem reload_get_zed (e : Entry) :
    dictGet (reloadEntry e) "zed_language" =
      some (Value.str (pyStr ((dictGet e "zed_language").getD (.str "")))) := rfl

theorem reload_get_source (e : Entry) :
    dictGet (reloadEntry e) "source" =
      some (Value.str (pyStr ((dictGet e "source").getD (.str "extra")))) := by
  rw [reloadEntry]
  rw [dictGet_append, dictGet_append]
  rw [show dictGet [("name", Value.str (pyStr ((dictGet e "name").getD (.str "")))),
    ("zed_language", Value.str (pyStr ((dictGet e "zed_language").getD (.str ""))))]
    "source" = none from rfl]
  simp only []
  by_cases hp : ((detPairsOfList e).map (fun p =>
      (p.1, Value.list (p.2.map (fun v => Value.str (pyStr v)))))).isEmpty
  · rw [if_pos hp]
    rfl
  · rw [if_neg hp]
    rw [detPairsOfList, dictGet_conv_aux e DETECTION_FIELDS "source" (by decide)]
    rw [if_neg (by decide)]
    rfl

theorem reload_get_det (e : Entry) (f : String) (hf : f ∈ DETECTION_FIELDS) :
    dictGet (reloadEntry e) f =
      (if (detPairsOfList e).isEmpty then
        (if f = "extensions" then some (Value.list []) else none)
      else
        match dictGet e f with
        | some (.list values) =>
          some (Value.list (values.map (fun v => Value.str (pyStr v))))
        | _ => none) := by
  rw [reloadEntry]
  rw [dictGet_append, dictGet_append]
  have hnz : dictGet [("name", Value.str (pyStr ((dictGet e "name").getD (.str "")))),
      ("zed_language", Value.str (pyStr ((dictGet e "zed_language").getD (.str ""))))]
      f = none := by
    simp only [DETECTION_FIELDS, List.mem_cons, List.not_mem_nil, or_false] at hf
    rcases hf with rfl | rfl | rfl <;> rfl
  rw [hnz]
  simp only []
  rw [isEmpty_map]
  by_cases hp : (detPairsOfList e).isEmpty
  · rw [if_pos hp, if_pos hp]
    simp only [DETECTION_FIELDS, List.mem_cons, List.not_mem_nil, or_false] at hf
    rcases hf with rfl | rfl | rfl <;> rfl
  · rw [if_neg hp, if_neg hp]
    rw [detPairsOfList, dictGet_conv_aux e DETECTION_FIELDS f (by decide), if_pos hf]
    have hfs : f ≠ "source" := by
      simp only [DETECTION_FIELDS, List.mem_cons, List.not_mem_nil, or_false] at hf
      rcases hf with rfl | rfl | rfl <;> decide
    cases hget : dictGet e f with
    | none => simp [dictGet, List.find?, decide_eq_false (Ne.symm hfs)]
    | some v =>
      cases v with
      | list vs => rfl
      | str s => simp [dictGet, List.find?, decide_eq_false (Ne.symm hfs)]
      | bool b => simp [dictGet, List.find?, decide_eq_false (Ne.symm hfs)]
      | int n => simp [dictGet, List.find?, decide_eq_false (Ne.symm hfs)]

theorem reload_lines_eq (sectionId : String) (e : Entry) :
    entry_lines_spec sectionId (reloadEntry e) = entry_lines_spec sectionId e := by
  have hif : (if (detLinesOver (reloadEntry e) DETECTION_FIELDS).isEmpty then
        ["extensions = []"]
      else detLinesOver (reloadEntry e) DETECTION_FIELDS) =
      (if (detLinesOver e DETECTION_FIELDS).isEmpty then ["extensions = []"]
      else detLinesOver e DETECTION_FIELDS) := by
    by_cases hp : detPairsOfList e = []
    · have h1 : dictGet (reloadEntry e) "extensions" = some (Value.list []) := by
        rw [reload_get_det e "extensions" (by decide), hp]
        rfl
      have h2 : dictGet (reloadEntry e) "suffixes" = none := by
        rw [reload_get_det e "suffixes" (by decide), hp]
        rfl
      have h3 : dictGet (reloadEntry e) "filenames" = none := by
        rw [reload_get_det e "filenames" (by decide), hp]
        rfl
      have hre : detLinesOver (reloadEntry e) DETECTION_FIELDS =
          ["extensions" ++ " = [" ++ joinQuoted [] ++ "]"] := by
        rw [detLinesOver,
          show DETECTION_FIELDS = ["extensions", "suffixes", "filenames"] from rfl,
          List.filterMap_cons, List.filterMap_cons, List.filterMap_cons,
          List.filterMap_nil, h1, h2, h3]
      have hor : detLinesOver e DETECTION_FIELDS = [] := by
        rw [detLinesOver_eq_map, hp, List.map_nil]
      rw [hre, hor, if_neg (by decide), if_pos (by decide)]
      decide
    · have hover : detLinesOver (reloadEntry e) DETECTION_FIELDS =
          detLinesOver e DETECTION_FIELDS := by
        rw [detLinesOver, detLinesOver]
        apply List.filterMap_congr
        intro f hf
        rw [reload_get_det e f hf, if_neg (by simp [List.isEmpty_iff, hp])]
        cases hget : dictGet e f with
        | none => rfl
        | some v =>
          cases v with
          | list vs =>
            simp only []
            rw [joinQuoted_map_str]
          | str s => rfl
          | bool b => rfl
          | int n => rfl
      rw [hover]
  rw [entry_lines_spec, entry_lines_spec, reload_get_name, reload_get_zed,
    reload_get_source]
  simp only [Option.getD_some]
  rw [hif]
  rfl

theorem flatMap_congr {α β : Type} (l : List α) (f g : α → List β)
    (h : ∀ a ∈ l, f a = g a) : l.flatMap f = l.flatMap g := by
  induction l with
  | nil => rfl
  | cons a l ih =>
    rw [List.flatMap_cons, List.flatMap_cons, h a (List.mem_cons_self _ _),
      ih (fun x hx => h x (List.mem_cons_of_mem _ hx))]

theorem joinQuoted_no_newline : ∀ vs : List Value,
    (∀ v ∈ vs, '\n' ∉ (pyStr v).data) → '\n' ∉ (joinQuoted vs).data
  | [], _ => by decide
  | [v], h => by
    rw [joinQuoted]
    simp [String.data_append, h v (List.mem_cons_self _ _)]
  | v :: v2 :: vs, h => by
    rw [show joinQuoted (v :: v2 :: vs) =
      "\"" ++ pyStr v ++ "\"" ++ ", " ++ joinQuoted (v2 :: vs) from rfl]
    have hrec := joinQuoted_no_newline (v2 :: vs)
      (fun x hx => h x (List.mem_cons_of_mem _ hx))
    simp [String.data_append, h v (List.mem_cons_self _ _), hrec]

theorem no_newline_three (pre mid last : String) (hpre : '\n' ∉ pre.data)
    (hmid : '\n' ∉ mid.data) (hlast : '\n' ∉ last.data) :
    '\n' ∉ (pre ++ mid ++ last).data := by
  simp [String.data_append, List.mem_append, hpre, hmid, hlast]

theorem entry_lines_spec_no_newline (sectionId : String) (e : Entry)
    (hid : '\n' ∉ sectionId.data) (hser : entrySerializableB e = true) :
    ∀ l ∈ entry_lines_spec sectionId e, '\n' ∉ l.data := by
  obtain ⟨⟨nv, hnv, hncl⟩, ⟨zv, hzv, hzcl⟩, hdetcl, hscl⟩ := entrySer_parts e hser
  intro l hl
  rw [entry_lines_spec] at hl
  simp only [List.cons_append, List.nil_append, List.mem_cons] at hl
  rcases hl with rfl | rfl | rfl | hl
  · rw [section_line_data]
    intro hmem
    rcases List.mem_cons.mp hmem with hc | hc
    · exact absurd hc (by decide)
    · rcases List.mem_append.mp hc with hc2 | hc2
      · exact hid hc2
      · exact absurd hc2 (by decide)
  · rw [hnv]
    exact no_newline_three "name = \"" _ "\"" (by decide)
      (cleanCharsB_spec _ hncl).1 (by decide)
  · rw [hzv]
    exact no_newline_three "zed_language = \"" _ "\"" (by decide)
      (cleanCharsB_spec _ hzcl).1 (by decide)
  · rcases List.mem_append.mp hl with hdet | hsrc
    · by_cases hemp : (detLinesOver e DETECTION_FIELDS).isEmpty
      · rw [if_pos hemp] at hdet
        rcases List.mem_singleton.mp hdet with rfl
        decide
      · rw [if_neg hemp, detLinesOver_eq_map] at hdet
        rcases List.mem_map.mp hdet with ⟨p, hp, rfl⟩
        obtain ⟨hpf, hpget⟩ := detPairs_mem e p hp
        have hjq : '\n' ∉ (joinQuoted p.2).data :=
          joinQuoted_no_newline p.2
            (fun v hv => (cleanCharsB_spec _ (hdetcl p.1 hpf p.2 hpget v hv)).1)
        have hfnl : '\n' ∉ (p.1 ++ " = [").data := by
          simp only [DETECTION_FIELDS, List.mem_cons, List.not_mem_nil, or_false] at hpf
          rcases hpf with hq | hq | hq <;> rw [hq] <;> decide
        exact no_newline_three (p.1 ++ " = [") (joinQuoted p.2) "]" hfnl hjq (by decide)
    · rcases List.mem_cons.mp hsrc with rfl | hs2
      · exact no_newline_three "source = \"" _ "\"" (by decide)
          (cleanCharsB_spec _ hscl).1 (by decide)
      · rcases List.mem_singleton.mp hs2 with rfl
        decide

/-- C6: serialization is a fixed point of the save-then-load round trip:
for every serializable config (unique ids, required fields present, no
quote or newline in any printed value), saving, parsing the saved text
through the TOML capability and saving again yields exactly the same
serialized text. -/
theorem save_load_save_roundtrip (cfg : Config)
    (h : configSerializableB cfg = true) :
    ∃ lines cfg2, save_config cfg = some lines ∧
      load_config true (joinLines lines) = some cfg2 ∧
      save_config cfg2 = some lines := by
  rw [configSerializableB, Bool.and_eq_true] at h
  rcases h with ⟨hnd, hall⟩
  have hclean : ∀ p ∈ cfg, '\n' ∉ p.1.data ∧ entrySerializableB p.2 = true := by
    intro p hp
    have hx := (List.all_eq_true.mp hall) p hp
    rw [Bool.and_eq_true] at hx
    refine ⟨?_, hx.2⟩
    intro hm
    have hx1 := hx.1
    rw [Bool.not_eq_eq_eq_not, Bool.not_true] at hx1
    simp [hm] at hx1
  have hidmem : ∀ id ∈ sortStrings (cfg.map Prod.fst),
      ∃ e, cfgGet cfg id = some e ∧ (id, e) ∈ cfg := fun id hid =>
    mem_keys_cfgGet cfg id ((sortStrings_perm _).mem_iff.mp hid)
  have hsave1 : save_config cfg =
      some (CONFIG_HEADER ++ (sortStrings (cfg.map Prod.fst)).flatMap
        (fun langId => entry_lines_spec langId ((cfgGet cfg langId).getD []))) := by
    rw [save_config]
    apply save_fold_eq
    intro id hid
    obtain ⟨e, he, hmem⟩ := hidmem id hid
    obtain ⟨⟨nv, hnv, _⟩, ⟨zv, hzv, _⟩, _, _⟩ := entrySer_parts e (hclean _ hmem).2
    exact ⟨e, he, entry_lines_eq_spec id e (by rw [dictHas, hnv]; rfl)
      (by rw [dictHas, hzv]; rfl)⟩
  have hserE : ∀ id ∈ sortStrings (cfg.map Prod.fst),
      entrySerializableB ((cfgGet cfg id).getD []) = true := by
    intro id hid
    obtain ⟨e, he, hmem⟩ := hidmem id hid
    rw [he]
    exact (hclean _ hmem).2
  have hidclean : ∀ id ∈ sortStrings (cfg.map Prod.fst), '\n' ∉ id.data := by
    intro id hid
    obtain ⟨e, he, hmem⟩ := hidmem id hid
    exact (hclean _ hmem).1
  refine ⟨CONFIG_HEADER ++ (sortStrings (cfg.map Prod.fst)).flatMap
      (fun langId => entry_lines_spec langId ((cfgGet cfg langId).getD [])),
    (sortStrings (cfg.map Prod.fst)).map
      (fun langId => (langId, reloadEntry ((cfgGet cfg langId).getD []))),
    hsave1, ?_, ?_⟩
  · rw [load_config, if_pos rfl, parseToml]
    rw [splitLines_joinLines _ (by simp [CONFIG_HEADER])
      (by
        intro l hl
        rcases List.mem_append.mp hl with hh | hb
        · rcases List.mem_cons.mp hh with rfl | hh2
          · decide
          · rcases List.mem_cons.mp hh2 with rfl | hh3
            · decide
            · rcases List.mem_singleton.mp hh3 with rfl
              decide
        · rcases List.mem_flatMap.mp hb with ⟨id, hid, hin⟩
          exact entry_lines_spec_no_newline id _ (hidclean id hid)
            (hserE id hid) l hin)]
    rw [parse_header]
    rw [← flatMap_pairs (sortStrings (cfg.map Prod.fst))
      (fun langId => (cfgGet cfg langId).getD []) entry_lines_spec]
    rw [parse_blocks _ [] none
      (by
        intro p hp
        rcases List.mem_map.mp hp with ⟨id, hid, rfl⟩
        exact hserE id hid)]
    simp [List.map_map, Function.comp]
  · rw [save_config]
    have hkeys2 : ((sortStrings (cfg.map Prod.fst)).map
        (fun langId => (langId, reloadEntry ((cfgGet cfg langId).getD [])))).map
          Prod.fst = sortStrings (cfg.map Prod.fst) := by
      rw [List.map_map]
      have hcomp : (Prod.fst ∘ fun langId =>
          (langId, reloadEntry ((cfgGet cfg langId).getD []))) = id :=
        funext fun x => rfl
      rw [hcomp, List.map_id]
    rw [hkeys2, sortStrings_of_sorted _ (sortStrings_sorted _)]
    rw [save_fold_eq _ _ _
      (by
        intro id hid
        refine ⟨reloadEntry ((cfgGet cfg id).getD []), cfgGet_map_pairs _ _ id hid, ?_⟩
        exact entry_lines_eq_spec id _ (by rw [dictHas, reload_get_name]; rfl)
          (by rw [dictHas, reload_get_zed]; rfl))]
    congr 1
    congr 1
    apply flatMap_congr
    intro id hid
    rw [cfgGet_map_pairs _ _ id hid, Option.getD_some, reload_lines_eq]

/-- C6 (witness): the round-trip theorem applied to a concrete two-entry
config with mixed detection shapes. -/
theorem save_load_save_roundtrip_witness :
    configSerializableB
      [("b", [("name", Value.str "B"), ("zed_language", .str "b"),
              ("suffixes", .list [.str "s"]),
              ("extensions", .list [.str "a", .str "c"])]),
       ("a", [("name", Value.str "A"), ("zed_language", .str "a"),
              ("source", .str "native"), ("enabled", .bool true)])] = true ∧
    ∃ lines cfg2,
      save_config
        [("b", [("name", Value.str "B"), ("zed_language", .str "b"),
                ("suffixes", .list [.str "s"]),
                ("extensions", .list [.str "a", .str "c"])]),
         ("a", [("name", Value.str "A"), ("zed_language", .str "a"),
                ("source", .str "native"), ("enabled", .bool true)])] = some lines ∧
      load_config true (joinLines lines) = some cfg2 ∧
      save_config cfg2 = some lines :=
  ⟨by decide, save_load_save_roundtrip _ (by decide)⟩

end JinjaUniversal
